import Mathlib

set_option maxRecDepth 8000

/-!
Verification of the FA 4.0 header generation core
(`tools/fa_header_generator.py`): the path resolver, the transformation
library, the field resolver, the header assembler and the validator,
shallowly embedded in Lean. Python values are modelled by the inductive
type `Value` (floats become exact rationals, `None` becomes `Value.vnone`),
Python dictionaries by association lists, and raised exceptions by
`Except Unit`.
-/

/-- A Python dictionary key of the metadata tree: either a string or an
integer (TIFF tag numbers are stored as integer keys). -/
inductive Key where
  | kstr (s : String)
  | kint (n : Int)
  deriving DecidableEq, Repr

/-- A Python value as it occurs in metadata trees and headers: `None`,
booleans, integers, floats (modelled as exact rationals), strings, tuples,
lists and dictionaries. -/
inductive Value where
  | vnone
  | vbool (b : Bool)
  | vint (n : Int)
  | vfloat (q : ℚ)
  | vstr (s : String)
  | vtuple (vs : List Value)
  | vlist (vs : List Value)
  | vdict (es : List (Key × Value))

/-- Python dictionary lookup with a string key: `part in current` /
`current[part]`. A string key never equals an integer key. -/
def dictLookupStr : List (Key × Value) → String → Option Value
  | [], _ => none
  | (Key.kstr k, v) :: rest, s => if k = s then some v else dictLookupStr rest s
  | (Key.kint _, _) :: rest, s => dictLookupStr rest s

/-- The loop of `FA40HeaderGenerator.extract_value_from_source`: walk the
already-split path parts; descend a dict by string key, anything else
returns `None`. -/
def extractValueParts : List String → Value → Value
  | [], cur => cur
  | p :: ps, cur =>
    match cur with
    | Value.vdict es =>
      match dictLookupStr es p with
      | some v => extractValueParts ps v
      | none => Value.vnone
    | _ => Value.vnone

/-- Python `str.split(sep)` for a single-character separator, over char
lists: `"".split(".") == [""]`, `"a.".split(".") == ["a", ""]`. -/
def splitCharsOn (sep : Char) : List Char → List (List Char)
  | [] => [[]]
  | c :: cs =>
    if c = sep then [] :: splitCharsOn sep cs
    else
      match splitCharsOn sep cs with
      | g :: gs => (c :: g) :: gs
      | [] => [[c]]

/-- Python `path.split(".")`. -/
def splitOnDot (s : String) : List String :=
  (splitCharsOn '.' s.toList).map (fun cs => String.mk cs)

/-- `FA40HeaderGenerator.extract_value_from_source`: split the source path
on `"."` and walk the metadata tree. -/
def extractValueFromSource (metadata : Value) (sourcePath : String) : Value :=
  extractValueParts (splitOnDot sourcePath) metadata

/-- The sample metadata tree of the repository's `tests/test_fixtures.py`
(`SAMPLE_TIFF_METADATA`, restricted to the entries the claims exercise);
note the custom TIFF tags stored under integer keys. -/
def sampleMetadata : Value := Value.vdict
  [ (Key.kstr "file_path", Value.vstr "/test/sample.tif"),
    (Key.kstr "file_size", Value.vint 2048576),
    (Key.kstr "pillow", Value.vdict
      [ (Key.kstr "width", Value.vint 1000),
        (Key.kstr "height", Value.vint 1000),
        (Key.kstr "tags_v2", Value.vdict
          [ (Key.kstr "ImageWidth", Value.vint 1000),
            (Key.kstr "DateTime", Value.vstr "2023:10:15 14:30:25"),
            (Key.kint 32000, Value.vstr "Custom Tool Data"),
            (Key.kint 32001, Value.vstr "SemiShop v2.1"),
            (Key.kint 32002, Value.vstr "Wafer_ID_12345") ]) ]) ]

/-- The integer-keyed tag dictionary reachable at `pillow.tags_v2` of
`sampleMetadata`. -/
def sampleTags : List (Key × Value) :=
  [ (Key.kstr "ImageWidth", Value.vint 1000),
    (Key.kstr "DateTime", Value.vstr "2023:10:15 14:30:25"),
    (Key.kint 32000, Value.vstr "Custom Tool Data"),
    (Key.kint 32001, Value.vstr "SemiShop v2.1"),
    (Key.kint 32002, Value.vstr "Wafer_ID_12345") ]

example : extractValueFromSource sampleMetadata "pillow.width" = Value.vint 1000 := rfl
example : extractValueFromSource sampleMetadata "pillow.tags_v2.32001" = Value.vnone := rfl

/-- The decimal digit characters. -/
def digitCharFn : Nat → Char
  | 0 => '0' | 1 => '1' | 2 => '2' | 3 => '3' | 4 => '4'
  | 5 => '5' | 6 => '6' | 7 => '7' | 8 => '8' | 9 => '9'
  | _ => '?'

/-- Numeric value of a decimal digit character. -/
def charDigitVal (c : Char) : Nat := c.toNat - 48

/-- Little-endian decimal digits of `n`, with explicit fuel so that the
definition is structurally recursive (the fuel `n` itself always
suffices). -/
def natDigitsAux : Nat → Nat → List Char
  | 0, _ => []
  | fuel + 1, n => if n = 0 then [] else digitCharFn (n % 10) :: natDigitsAux fuel (n / 10)

/-- Big-endian decimal digit characters of `n`, as Python renders a
non-negative integer. -/
def natDigits (n : Nat) : List Char :=
  if n = 0 then ['0'] else (natDigitsAux n n).reverse

/-- Python `str` on a non-negative integer. -/
def natStr (n : Nat) : String := String.mk (natDigits n)

/-- Modelled from Python `str` on an `int`: decimal digits with a leading
minus sign for negative numbers. -/
def intStr (n : Int) : String :=
  if n < 0 then "-" ++ natStr n.natAbs else natStr n.natAbs

/-- Parse a big-endian list of decimal digit characters (the numeric text
accepted by Python `int`/`float` after sign and dot splitting). -/
def digitsToNat (cs : List Char) : Nat :=
  cs.foldl (fun acc c => 10 * acc + charDigitVal c) 0

/-- Digits of `a` left-padded with zeros to width `k`. -/
def padDigits (k a : Nat) : List Char :=
  List.replicate (k - (natDigits a).length) '0' ++ natDigits a

/-- Zero-pad a number to at least two digits (exponents of Python float
scientific notation). -/
def pad2 (n : Nat) : String := if n < 10 then "0" ++ natStr n else natStr n

/-- Smallest `k ≤ 1100` such that `q * 10 ^ k` is an integer (computed on
the reduced numerator and denominator). Every value of a Python float is a
dyadic rational, whose decimal expansion terminates within 1100 digits, so
on float values this never returns `none`. -/
def findDecExp (q : ℚ) : Option Nat :=
  (List.range 1101).find? (fun k => q.num.natAbs * 10 ^ k % q.den == 0)

/-- Modelled from CPython's float repr (shortest round-trip digits): plain
decimal (always with a fractional part) when the decimal exponent lies in
`[-4, 16)`, otherwise scientific notation with an explicitly signed,
two-digit-padded exponent, e.g. `str(1e-07) == "1e-07"`. Floats are
modelled as exact decimal rationals, rendered by their canonical digit
string. -/
def pyFloatStr (q : ℚ) : String :=
  if q.num = 0 then "0.0"
  else
    let sign := if q.num < 0 then "-" else ""
    match findDecExp q with
    | none => ""
    | some k =>
      let D := q.num.natAbs * 10 ^ k / q.den
      let ds := natDigits D
      let e : Int := (ds.length : Int) - 1 - (k : Int)
      if -4 ≤ e ∧ e < 16 then
        sign ++ natStr (D / 10 ^ k) ++ "." ++
          (if k = 0 then "0" else String.mk (padDigits k (D % 10 ^ k)))
      else
        let mant :=
          match (ds.reverse.dropWhile (fun c => c = '0')).reverse with
          | [] => "0"
          | [c] => String.mk [c]
          | c :: cs => String.mk [c] ++ "." ++ String.mk cs
        sign ++ mant ++ "e" ++ (if e < 0 then "-" else "+") ++ pad2 e.natAbs

/-- Python `repr` of a dictionary key. -/
def pyReprKey : Key → String
  | Key.kstr s => "'" ++ s ++ "'"
  | Key.kint n => intStr n

/-- Join strings with `", "`, as inside Python container reprs. -/
def joinComma : List String → String
  | [] => ""
  | [s] => s
  | s :: rest => s ++ ", " ++ joinComma rest

mutual

/-- Modelled from Python `repr` (scalar cases are exact; container cases
render recursively without string-escape subtleties, which the engine
never relies on). -/
def pyReprValue : Value → String
  | Value.vnone => "None"
  | Value.vbool b => if b then "True" else "False"
  | Value.vint n => intStr n
  | Value.vfloat q => pyFloatStr q
  | Value.vstr s => "'" ++ s ++ "'"
  | Value.vtuple [v] => "(" ++ pyReprValue v ++ ",)"
  | Value.vtuple vs => "(" ++ joinComma (pyReprList vs) ++ ")"
  | Value.vlist vs => "[" ++ joinComma (pyReprList vs) ++ "]"
  | Value.vdict es => "\x7b" ++ joinComma (pyReprDictList es) ++ "\x7d"
termination_by v => sizeOf v
decreasing_by all_goals (simp_wf <;> omega)

/-- `repr` of each element of a list. -/
def pyReprList : List Value → List String
  | [] => []
  | v :: vs => pyReprValue v :: pyReprList vs
termination_by vs => sizeOf vs
decreasing_by all_goals (simp_wf <;> omega)

/-- `repr` of each `key: value` entry of a dictionary. -/
def pyReprDictList : List (Key × Value) → List String
  | [] => []
  | (k, v) :: es => (pyReprKey k ++ ": " ++ pyReprValue v) :: pyReprDictList es
termination_by es => sizeOf es
decreasing_by all_goals (simp_wf <;> omega)

end

/-- Modelled from Python `str()`: the identity on strings, `repr`
otherwise. -/
def pyStrValue : Value → String
  | Value.vstr s => s
  | v => pyReprValue v

/-- Characters removed by `_clean_string`'s regex
`[\x00-\x1f\x7f-\x9f]`. -/
def isCtlChar (c : Char) : Bool :=
  c.toNat ≤ 0x1f || (0x7f ≤ c.toNat && c.toNat ≤ 0x9f)

/-- Modelled from Python `str.isspace` / `str.strip()`'s whitespace set. -/
def pyIsSpaceChar (c : Char) : Bool :=
  c.toNat = 0x20 || c.toNat = 0x9 || c.toNat = 0xa || c.toNat = 0xb ||
  c.toNat = 0xc || c.toNat = 0xd || c.toNat = 0x1c || c.toNat = 0x1d ||
  c.toNat = 0x1e || c.toNat = 0x1f || c.toNat = 0x85 || c.toNat = 0xa0 ||
  c.toNat = 0x1680 || (0x2000 ≤ c.toNat && c.toNat ≤ 0x200a) ||
  c.toNat = 0x2028 || c.toNat = 0x2029 || c.toNat = 0x202f ||
  c.toNat = 0x205f || c.toNat = 0x3000

/-- Python `str.strip()`. -/
def pyStrip (s : String) : String :=
  String.mk (((s.toList.dropWhile pyIsSpaceChar).reverse.dropWhile pyIsSpaceChar).reverse)

/-- The string branch of `_clean_string`: drop control characters, then
strip surrounding whitespace. -/
def cleanStringStr (s : String) : String :=
  pyStrip (String.mk (s.toList.filter (fun c => !(isCtlChar c))))

/-- `_clean_string` after the one-level tuple unwrap. -/
def cleanStringInner : Value → String
  | Value.vstr s => cleanStringStr s
  | Value.vnone => ""
  | v => pyStrValue v

/-- `FA40HeaderGenerator._clean_string`: unwrap a non-empty tuple to its
first element; clean strings; `None` becomes `""`; anything else is
`str()`-ed. -/
def cleanString : Value → String
  | Value.vtuple (v :: _) => cleanStringInner v
  | v => cleanStringInner v

/-- `_get_first_valid_string` after the one-level tuple/list unwrap:
strings go through `_clean_string`, `None` becomes `""`, anything else is
`str()`-ed. -/
def gfvsCore : Value → String
  | Value.vstr s => cleanString (Value.vstr s)
  | Value.vnone => ""
  | v => pyStrValue v

/-- `FA40HeaderGenerator._get_first_valid_string`. -/
def getFirstValidString : Value → String
  | Value.vtuple (v :: _) => gfvsCore v
  | Value.vlist (v :: _) => gfvsCore v
  | v => gfvsCore v

/-- Python truthiness of a `Value` (`if not value:` tests). -/
def pyTruthy : Value → Bool
  | Value.vnone => false
  | Value.vbool b => b
  | Value.vint n => n != 0
  | Value.vfloat q => q != 0
  | Value.vstr s => s != ""
  | Value.vtuple vs => !vs.isEmpty
  | Value.vlist vs => !vs.isEmpty
  | Value.vdict es => !es.isEmpty

example : cleanString (Value.vstr "Test\x00String\x01With\x1fControl\x7fChars") = "TestStringWithControlChars" := rfl
example : cleanString (Value.vtuple [Value.vstr "Clean String\x00\x01", Value.vstr "second"]) = "Clean String" := rfl
example : cleanString Value.vnone = "" := rfl
example : intStr (-5) = "-5" := rfl
example : natStr 2048576 = "2048576" := rfl
example : pyFloatStr (mkRat 1 10000000) = "1e-07" := by decide
example : pyFloatStr (mkRat 5 2) = "2.5" := by decide
example : pyFloatStr (mkRat 3 1) = "3.0" := by decide
example : pyFloatStr (mkRat 1 20) = "0.05" := by decide
example : pyFloatStr (mkRat (-5) 2) = "-2.5" := by decide
example : pyFloatStr (mkRat 10000000000000000 1) = "1e+16" := by decide

/-- Greedy match of `\d+\.?\d*` at the current position (the regex of
`_parse_first_number` after the optional sign). -/
def matchDigitsPart (cs : List Char) : Option (List Char) :=
  if (cs.takeWhile Char.isDigit).isEmpty then none
  else
    match cs.drop (cs.takeWhile Char.isDigit).length with
    | '.' :: t2 => some (cs.takeWhile Char.isDigit ++ '.' :: t2.takeWhile Char.isDigit)
    | _ => some (cs.takeWhile Char.isDigit)

/-- Match of the regex `-?\d+\.?\d*` anchored at the current position. -/
def matchNumHere : List Char → Option (List Char)
  | [] => none
  | c :: cs =>
    if c = '-' then (matchDigitsPart cs).map (fun ms => '-' :: ms)
    else matchDigitsPart (c :: cs)

/-- Leftmost match of `-?\d+\.?\d*` (the first element of
`re.findall(r"-?\d+\.?\d*", value)`). -/
def findNum : List Char → Option (List Char)
  | [] => none
  | c :: cs =>
    match matchNumHere (c :: cs) with
    | some ms => some ms
    | none => findNum cs

/-- Python `int()` on a matched numeric text (optional sign and digits). -/
def parseIntChars (cs : List Char) : Int :=
  match cs with
  | c :: ds => if c = '-' then -(digitsToNat ds : Int) else (digitsToNat cs : Int)
  | [] => (digitsToNat cs : Int)

/-- Python `float()` on an unsigned matched text `digits[.digits]`. -/
def parseFracChars (cs : List Char) : ℚ :=
  let ip := cs.takeWhile (fun c => c != '.')
  let fp := (cs.drop ip.length).drop 1
  (digitsToNat ip : ℚ) + (digitsToNat fp : ℚ) / (10 : ℚ) ^ fp.length

/-- Python `float()` on a matched numeric text with optional sign. -/
def parseFloatChars (cs : List Char) : ℚ :=
  match cs with
  | c :: rest => if c = '-' then -(parseFracChars rest) else parseFracChars cs
  | [] => parseFracChars cs

/-- The string branch of `_parse_first_number`: first regex match wins,
parsed as a float when it contains a decimal point, as an int otherwise,
`None` when nothing matches. -/
def parseNumFromString (s : String) : Value :=
  match findNum s.toList with
  | none => Value.vnone
  | some ms =>
    if ms.contains '.' then Value.vfloat (parseFloatChars ms)
    else Value.vint (parseIntChars ms)

/-- `_parse_first_number` after the one-level tuple/list unwrap. Python's
`isinstance(value, (int, float))` also accepts `bool` (a subclass of
`int`), returning the boolean unchanged. -/
def parseNumInner : Value → Value
  | Value.vint n => Value.vint n
  | Value.vfloat q => Value.vfloat q
  | Value.vbool b => Value.vbool b
  | Value.vstr s => parseNumFromString s
  | _ => Value.vnone

/-- `FA40HeaderGenerator._parse_first_number`. -/
def parseFirstNumber : Value → Value
  | Value.vint n => Value.vint n
  | Value.vfloat q => Value.vfloat q
  | Value.vbool b => Value.vbool b
  | Value.vtuple (v :: _) => parseNumInner v
  | Value.vlist (v :: _) => parseNumInner v
  | Value.vstr s => parseNumFromString s
  | _ => Value.vnone

/-- Round-half-to-even to an integer (Python `round`), computed on the
numerator and denominator. -/
def roundHalfEven (x : ℚ) : Int :=
  let f := x.num.fdiv (x.den : Int)
  let r := x.num - f * (x.den : Int)
  if 2 * r < (x.den : Int) then f
  else if (x.den : Int) < 2 * r then f + 1
  else if f % 2 = 0 then f else f + 1

/-- Python `round(x, 2)`. -/
def pyRound2 (q : ℚ) : ℚ := mkRat (roundHalfEven (mkRat (q.num * 100) q.den)) 100

/-- `FA40HeaderGenerator._resolution_to_pixel_size`: `if dpi and dpi > 0`
then `round(25400000 / dpi, 2)` else `None`. A boolean DPI counts as 1/0
under Python arithmetic. -/
def resolutionToPixelSize (value : Value) : Value :=
  match parseFirstNumber value with
  | Value.vint n => if 0 < n then Value.vfloat (pyRound2 (25400000 / (n : ℚ))) else Value.vnone
  | Value.vfloat q => if 0 < q then Value.vfloat (pyRound2 (25400000 / q)) else Value.vnone
  | Value.vbool b => if b then Value.vfloat (pyRound2 (25400000 / 1)) else Value.vnone
  | _ => Value.vnone

/-- Python `str.lower()` (ASCII case folding suffices here). -/
def pyLower (s : String) : String := String.mk (s.toList.map Char.toLower)

/-- The `mode_map` dictionary of `_normalize_color_mode`. -/
def modeMap (s : String) : Option String :=
  if s = "l" then some "grayscale"
  else if s = "grayscale" then some "grayscale"
  else if s = "grey" then some "grayscale"
  else if s = "gray" then some "grayscale"
  else if s = "rgb" then some "rgb"
  else if s = "rgba" then some "rgb"
  else if s = "cmyk" then some "cmyk"
  else if s = "palette" then some "palette"
  else if s = "p" then some "palette"
  else none

/-- `FA40HeaderGenerator._normalize_color_mode`. -/
def normalizeColorMode (value : Value) : String :=
  let modeStr := pyLower (getFirstValidString value)
  (modeMap modeStr).getD modeStr

example : parseNumFromString "Image size: 1024x768" = Value.vint 1024 := rfl
example : parseNumFromString "no numbers" = Value.vnone := rfl
example : parseFirstNumber (Value.vtuple [Value.vint 123, Value.vint 456]) = Value.vint 123 := rfl
example : normalizeColorMode (Value.vstr "GRAYSCALE") = "grayscale" := rfl
example : normalizeColorMode (Value.vstr "RGBA") = "rgb" := rfl
example : normalizeColorMode (Value.vstr "weird") = "weird" := rfl

/-- A directive of the `strptime` format strings used by
`_datetime_to_iso8601`: year, month, day, hour, minute, second, or a
literal character. -/
inductive FmtTok where
  | Y | m | d | H | M | S
  | lit (c : Char)
  deriving DecidableEq, Repr

/-- The fields `strptime` fills in, with its documented defaults
(1900-01-01 00:00:00). -/
structure RawDT where
  y : Nat
  mo : Nat
  dy : Nat
  hh : Nat
  mi : Nat
  ss : Nat
  deriving DecidableEq, Repr

/-- Match a two-character alternative `[lo1-hi1][lo2-hi2]` of CPython's
`_strptime` field regexes. -/
def matchTwoDigits (lo1 hi1 lo2 hi2 : Char) : List Char → Option (Nat × List Char)
  | c1 :: c2 :: rest =>
    if lo1 ≤ c1 ∧ c1 ≤ hi1 ∧ lo2 ≤ c2 ∧ c2 ≤ hi2 then
      some (10 * charDigitVal c1 + charDigitVal c2, rest)
    else none
  | _ => none

/-- Match a one-character alternative `[lo-hi]`. -/
def matchOneDigit (lo hi : Char) : List Char → Option (Nat × List Char)
  | c :: rest => if lo ≤ c ∧ c ≤ hi then some (charDigitVal c, rest) else none
  | _ => none

/-- Match `%Y`, i.e. `\d\d\d\d` in CPython's `_strptime`. -/
def matchYear : List Char → Option (Nat × List Char)
  | a :: b :: c :: e :: rest =>
    if a.isDigit ∧ b.isDigit ∧ c.isDigit ∧ e.isDigit then
      some (1000 * charDigitVal a + 100 * charDigitVal b + 10 * charDigitVal c + charDigitVal e, rest)
    else none
  | _ => none

/-- The ordered alternatives of each `_strptime` field regex:
`%m = 1[0-2]|0[1-9]|[1-9]`, `%d = 3[01]|[12]\d|0[1-9]|[1-9]`,
`%H = 2[0-3]|[0-1]\d|\d`, `%M = [0-5]\d|\d`, `%S = 6[0-1]|[0-5]\d|\d`. -/
def fieldAlts : FmtTok → List Char → List (Nat × List Char)
  | FmtTok.Y, cs => [matchYear cs].filterMap id
  | FmtTok.m, cs =>
    [matchTwoDigits '1' '1' '0' '2' cs, matchTwoDigits '0' '0' '1' '9' cs,
      matchOneDigit '1' '9' cs].filterMap id
  | FmtTok.d, cs =>
    [matchTwoDigits '3' '3' '0' '1' cs, matchTwoDigits '1' '2' '0' '9' cs,
      matchTwoDigits '0' '0' '1' '9' cs, matchOneDigit '1' '9' cs].filterMap id
  | FmtTok.H, cs =>
    [matchTwoDigits '2' '2' '0' '3' cs, matchTwoDigits '0' '1' '0' '9' cs,
      matchOneDigit '0' '9' cs].filterMap id
  | FmtTok.M, cs => [matchTwoDigits '0' '5' '0' '9' cs, matchOneDigit '0' '9' cs].filterMap id
  | FmtTok.S, cs =>
    [matchTwoDigits '6' '6' '0' '1' cs, matchTwoDigits '0' '5' '0' '9' cs,
      matchOneDigit '0' '9' cs].filterMap id
  | FmtTok.lit _, _ => []

/-- Store a matched field value. -/
def setField : FmtTok → Nat → RawDT → RawDT
  | FmtTok.Y, v, r => { r with y := v }
  | FmtTok.m, v, r => { r with mo := v }
  | FmtTok.d, v, r => { r with dy := v }
  | FmtTok.H, v, r => { r with hh := v }
  | FmtTok.M, v, r => { r with mi := v }
  | FmtTok.S, v, r => { r with ss := v }
  | FmtTok.lit _, _, r => r

/-- All matches of a compiled format regex against a prefix of the input,
in backtracking priority order, each with its unconsumed suffix. The head
is the match `re.match` returns. -/
def runFmt : List FmtTok → List Char → RawDT → List (RawDT × List Char)
  | [], cs, acc => [(acc, cs)]
  | FmtTok.lit c :: toks, cs, acc =>
    match cs with
    | c2 :: rest => if c2 = c then runFmt toks rest acc else []
    | [] => []
  | tok :: toks, cs, acc =>
    (fieldAlts tok cs).flatMap (fun p => runFmt toks p.2 (setField tok p.1 acc))

/-- Gregorian leap year (the `datetime` constructor's calendar). -/
def isLeapYear (y : Nat) : Bool := (y % 4 == 0 && y % 100 != 0) || y % 400 == 0

/-- Days in a month of the proleptic Gregorian calendar. -/
def daysInMonth (y mo : Nat) : Nat :=
  if mo = 2 then (if isLeapYear y then 29 else 28)
  else if mo = 4 ∨ mo = 6 ∨ mo = 9 ∨ mo = 11 then 30
  else 31

/-- Modelled from `datetime.strptime(s, fmt)` for the fixed formats used
here: the priority-first regex match must consume the whole string
(`unconverted data remains` otherwise), and the `datetime` constructor
must accept the fields (a year 0, an out-of-range day such as Feb 30, or
a leap second parsed by `%S` raise `ValueError`, which the caller treats
as a parse failure). The field patterns already force the remaining
constructor bounds. -/
def strptime (fmt : List FmtTok) (s : String) : Option RawDT :=
  match runFmt fmt s.toList ⟨1900, 1, 1, 0, 0, 0⟩ with
  | [] => none
  | (r, leftover) :: _ =>
    if leftover = [] ∧ 1 ≤ r.y ∧ r.dy ≤ daysInMonth r.y r.mo ∧ r.ss ≤ 59 then some r
    else none

/-- Four-digit zero-padded year. -/
def pad4 (n : Nat) : String := String.mk (padDigits 4 n)

/-- Two-digit zero-padded field. -/
def pad2d (n : Nat) : String := String.mk (padDigits 2 n)

/-- `datetime.isoformat()` for whole-second datetimes:
`YYYY-MM-DDTHH:MM:SS` (a zero microsecond field is omitted). -/
def isoformat (r : RawDT) : String :=
  pad4 r.y ++ "-" ++ pad2d r.mo ++ "-" ++ pad2d r.dy ++ "T" ++
    pad2d r.hh ++ ":" ++ pad2d r.mi ++ ":" ++ pad2d r.ss

/-- `"%Y:%m:%d %H:%M:%S"` (TIFF canonical). -/
def fmtTiff : List FmtTok :=
  [FmtTok.Y, FmtTok.lit ':', FmtTok.m, FmtTok.lit ':', FmtTok.d, FmtTok.lit ' ',
    FmtTok.H, FmtTok.lit ':', FmtTok.M, FmtTok.lit ':', FmtTok.S]

/-- `"%Y-%m-%d %H:%M:%S"`. -/
def fmtDashTime : List FmtTok :=
  [FmtTok.Y, FmtTok.lit '-', FmtTok.m, FmtTok.lit '-', FmtTok.d, FmtTok.lit ' ',
    FmtTok.H, FmtTok.lit ':', FmtTok.M, FmtTok.lit ':', FmtTok.S]

/-- `"%Y/%m/%d %H:%M:%S"`. -/
def fmtSlashTime : List FmtTok :=
  [FmtTok.Y, FmtTok.lit '/', FmtTok.m, FmtTok.lit '/', FmtTok.d, FmtTok.lit ' ',
    FmtTok.H, FmtTok.lit ':', FmtTok.M, FmtTok.lit ':', FmtTok.S]

/-- `"%Y-%m-%dT%H:%M:%S"`. -/
def fmtTTime : List FmtTok :=
  [FmtTok.Y, FmtTok.lit '-', FmtTok.m, FmtTok.lit '-', FmtTok.d, FmtTok.lit 'T',
    FmtTok.H, FmtTok.lit ':', FmtTok.M, FmtTok.lit ':', FmtTok.S]

/-- `"%Y-%m-%d"`. -/
def fmtDateDash : List FmtTok :=
  [FmtTok.Y, FmtTok.lit '-', FmtTok.m, FmtTok.lit '-', FmtTok.d]

/-- `"%Y:%m:%d"`. -/
def fmtDateColon : List FmtTok :=
  [FmtTok.Y, FmtTok.lit ':', FmtTok.m, FmtTok.lit ':', FmtTok.d]

/-- The `formats` list tried after the TIFF format, in source order. -/
def restFormats : List (List FmtTok) :=
  [fmtDashTime, fmtSlashTime, fmtTTime, fmtDateDash, fmtDateColon]

/-- All six formats in the order the claims describe. -/
def allFormats : List (List FmtTok) := fmtTiff :: restFormats

/-- The `for fmt in formats:` loop of `_datetime_to_iso8601`: first format
that parses wins, otherwise the string is returned unchanged. -/
def tryFormats : List (List FmtTok) → String → Value
  | [], s => Value.vstr s
  | f :: fs, s =>
    match strptime f s with
    | some r => Value.vstr (isoformat r)
    | none => tryFormats fs s

/-- `FA40HeaderGenerator._datetime_to_iso8601`. -/
def datetimeToIso8601 (value : Value) : Value :=
  if pyTruthy value then
    let s := getFirstValidString value
    if s = "" then Value.vnone
    else if s.toList.contains ':' && s.toList.contains ' ' then
      match strptime fmtTiff s with
      | some r => Value.vstr (isoformat r)
      | none => tryFormats restFormats s
    else tryFormats restFormats s
  else Value.vnone

example : datetimeToIso8601 (Value.vstr "2023:10:15 14:30:25") = Value.vstr "2023-10-15T14:30:25" := rfl
example : datetimeToIso8601 (Value.vstr "2023-10-15 14:30:25") = Value.vstr "2023-10-15T14:30:25" := rfl
example : datetimeToIso8601 (Value.vstr "invalid date") = Value.vstr "invalid date" := rfl
example : datetimeToIso8601 (Value.vstr "") = Value.vnone := rfl
example : datetimeToIso8601 (Value.vstr "2023-10-15") = Value.vstr "2023-10-15T00:00:00" := rfl
example : datetimeToIso8601 (Value.vstr "2023:02:30 01:02:03") = Value.vstr "2023:02:30 01:02:03" := rfl

/-- `FA40HeaderGenerator.apply_transformation`: dispatch on the
transformation name; unknown names fall through to the `else` branch and
return the value unchanged. -/
def applyTransformation (value : Value) (transformation : String) : Value :=
  if transformation = "clean_string" then Value.vstr (cleanString value)
  else if transformation = "first_available_numeric" then parseFirstNumber value
  else if transformation = "first_available_string" then Value.vstr (getFirstValidString value)
  else if transformation = "convert_to_iso8601" then datetimeToIso8601 value
  else if transformation = "dpi_to_nanometers" then resolutionToPixelSize value
  else if transformation = "standardize_color_mode" then Value.vstr (normalizeColorMode value)
  else value

/-- The extraction step inside `resolve_field_value`: dispatch on the
extraction name; any other name (including the `"as_is"` default) leaves
the value unchanged. -/
def applyExtraction (extraction : String) (value : Value) : Value :=
  if extraction = "first_available_numeric" then parseFirstNumber value
  else if extraction = "first_available_string" then Value.vstr (getFirstValidString value)
  else if extraction = "resolution_to_pixel_size" ∨ extraction = "dpi_to_nanometers" then
    resolutionToPixelSize value
  else value

/-- `field_config.get("source", [])` followed by the string-to-singleton
normalization: a connector's `source` is either one path string or a list
of them. -/
inductive SourceSpec where
  | single (s : String)
  | multiple (ss : List String)
  deriving DecidableEq, Repr

/-- The field-definition keys `resolve_field_value` and the assembler
read. Missing JSON keys are `none`. -/
structure FieldConfig where
  source : SourceSpec
  transformation : Option String
  extraction : Option String
  unit : Option String

/-- The `if isinstance(sources, str): sources = [sources]`
normalization. -/
def sourcesList : SourceSpec → List String
  | SourceSpec.single s => [s]
  | SourceSpec.multiple ss => ss

/-- Python `Path(s).name` for POSIX paths: the final path component. -/
def pathName (s : String) : String :=
  (((s.toList.foldr
      (fun c acc => if c = '/' then [] :: acc else
        match acc with
        | g :: gs => (c :: g) :: gs
        | [] => [[c]]) [[]]).map (fun cs => String.mk cs)).filter
    (fun c => decide (c ≠ "" ∧ c ≠ "."))).getLast?.getD ""

/-- Python `str(Path(s).parent)` for POSIX paths: drop the final
component; `"."` for a bare file name, `"/"` below the root. -/
def parentDir (s : String) : String :=
  let comps := ((s.toList.foldr
      (fun c acc => if c = '/' then [] :: acc else
        match acc with
        | g :: gs => (c :: g) :: gs
        | [] => [[c]]) [[]]).map (fun cs => String.mk cs)).filter
    (fun c => decide (c ≠ "" ∧ c ≠ "."))
  let isAbs := s.toList.head? = some '/'
  let parentComps := comps.dropLast
  if parentComps = [] then (if isAbs then "/" else ".")
  else (if isAbs then "/" else "") ++ String.intercalate "/" parentComps

/-- Resolution of one source name in `resolve_field_value`: the virtual
sources `"filename"`, `"file_size"` and `"format"` are special-cased
(direct subscripts of a missing key, or attribute access on a non-dict,
raise, modelled as `Except.error ()`); every other name goes through
`extract_value_from_source`, which never raises. -/
def resolveRaw (metadata : Value) (src : String) : Except Unit Value :=
  if src = "filename" then
    match metadata with
    | Value.vdict es =>
      match dictLookupStr es "file_path" with
      | some (Value.vstr s) => Except.ok (Value.vstr (pathName s))
      | some _ => Except.error ()
      | none => Except.error ()
    | _ => Except.error ()
  else if src = "file_size" then
    match metadata with
    | Value.vdict es =>
      match dictLookupStr es "file_size" with
      | some v => Except.ok v
      | none => Except.error ()
    | _ => Except.error ()
  else if src = "format" then
    match metadata with
    | Value.vdict es =>
      match (dictLookupStr es "pillow").getD (Value.vdict []) with
      | Value.vdict es2 =>
        match (dictLookupStr es2 "basic_info").getD (Value.vdict []) with
        | Value.vdict es3 => Except.ok ((dictLookupStr es3 "format").getD Value.vnone)
        | _ => Except.error ()
      | _ => Except.error ()
    | _ => Except.error ()
  else Except.ok (extractValueFromSource metadata src)

/-- The transformation pass of `resolve_field_value`: applied only when
the declared transformation is truthy (present and non-empty). -/
def transformStep (cfg : FieldConfig) (v : Value) : Value :=
  match cfg.transformation with
  | some t => if t = "" then v else applyTransformation v t
  | none => v

/-- The body of one loop iteration of `resolve_field_value` after a
non-exceptional raw value: skip `None`, otherwise run both passes and
return the result unless it became `None`; `k` is the continuation over
the remaining sources. -/
def stepValue (cfg : FieldConfig) (value : Value) (k : Except Unit Value) : Except Unit Value :=
  match value with
  | Value.vnone => k
  | v =>
    match applyExtraction (cfg.extraction.getD "as_is") (transformStep cfg v) with
    | Value.vnone => k
    | w => Except.ok w

/-- The `for source in sources:` loop of `resolve_field_value`: skip a
source whose raw value is `None`; otherwise apply the declared
transformation (when truthy) and then the extraction step, and return the
result if it is not `None`, else continue; `None` when the list is
exhausted. -/
def resolveSources (metadata : Value) (cfg : FieldConfig) : List String → Except Unit Value
  | [] => Except.ok Value.vnone
  | src :: rest =>
    match resolveRaw metadata src with
    | Except.error e => Except.error e
    | Except.ok value => stepValue cfg value (resolveSources metadata cfg rest)

/-- `FA40HeaderGenerator.resolve_field_value`. -/
def resolveFieldValue (metadata : Value) (cfg : FieldConfig) : Except Unit Value :=
  resolveSources metadata cfg (sourcesList cfg.source)

/-- The output header: the six fixed sections, each an insertion-ordered
dictionary of field name to value. -/
def Header := List (String × List (String × Value))

/-- Python dict assignment `d[k] = v`: overwrite in place, else append. -/
def dictAssign : List (String × Value) → String → Value → List (String × Value)
  | [], k, v => [(k, v)]
  | (k2, v2) :: rest, k, v =>
    if k2 = k then (k, v) :: rest else (k2, v2) :: dictAssign rest k v

/-- Lookup in a section dictionary. -/
def dictLookup : List (String × Value) → String → Option Value
  | [], _ => none
  | (k2, v2) :: rest, k => if k2 = k then some v2 else dictLookup rest k

/-- Lookup of a section of the header. -/
def sectionLookup : Header → String → Option (List (String × Value))
  | [], _ => none
  | (s2, f2) :: rest, s => if s2 = s then some f2 else sectionLookup rest s

/-- `fa40_header[section][field] = value`. -/
def headerSet : Header → String → String → Value → Header
  | [], sec, name, val => [(sec, dictAssign [] name val)]
  | (s2, fields) :: rest, sec, name, val =>
    if s2 = sec then (s2, dictAssign fields name val) :: rest
    else (s2, fields) :: headerSet rest sec name val

/-- `header[section][field]`, when both exist. -/
def fieldLookup (h : Header) (sec name : String) : Option Value :=
  (sectionLookup h sec).bind (fun fields => dictLookup fields name)

/-- The empty FA 4.0 header skeleton (`fa40_header = {...}`). -/
def initHeader : Header :=
  [("General Section", []), ("Method Specific", []), ("Tool Specific", []),
    ("Customer Specific", []), ("Data Evaluation", []), ("History", [])]

/-- The section-name dispatch of the mapping loop; connector sections
other than the three known ones are skipped (`continue`). -/
def targetSection (sectionName : String) : Option String :=
  if sectionName = "general_section" then some "General Section"
  else if sectionName = "method_specific" then some "Method Specific"
  else if sectionName = "tool_specific" then some "Tool Specific"
  else none

/-- The unit-envelope allow-list hardcoded in `generate_fa40_header`. -/
def unitAllowList : List String :=
  ["Image Width", "Image Height", "File Size", "Pixel Width", "Pixel Height"]

/-- The `for field_name, field_config in section_mappings.items():` loop:
resolve each field; skip `None`; wrap in a `{Value, Unit}` envelope
exactly when the unit is truthy and the field name is allow-listed. -/
def processSectionFields (metadata : Value) (target : String) :
    List (String × FieldConfig) → Header → Except Unit Header
  | [], h => Except.ok h
  | (name, cfg) :: rest, h =>
    match resolveFieldValue metadata cfg with
    | Except.error e => Except.error e
    | Except.ok Value.vnone => processSectionFields metadata target rest h
    | Except.ok v =>
      let newVal :=
        if cfg.unit.getD "" ≠ "" ∧ name ∈ unitAllowList then
          Value.vdict [(Key.kstr "Value", v), (Key.kstr "Unit", Value.vstr (cfg.unit.getD ""))]
        else v
      processSectionFields metadata target rest (headerSet h target name newVal)

/-- The `for section_name, section_mappings in ...` loop. -/
def processSections (metadata : Value) :
    List (String × List (String × FieldConfig)) → Header → Except Unit Header
  | [], h => Except.ok h
  | (secName, fields) :: rest, h =>
    match targetSection secName with
    | none => processSections metadata rest h
    | some target =>
      match processSectionFields metadata target fields h with
      | Except.error e => Except.error e
      | Except.ok h2 => processSections metadata rest h2

/-- The `validation` block of a connector. -/
structure ValidationSpec where
  required_fields : List String
  optional_fields : List String
  deriving DecidableEq, Repr

/-- A loaded connector: the `mappings` and `validation` top-level keys
(each may be absent). -/
structure Connector where
  mappings : Option (List (String × List (String × FieldConfig)))
  validation : Option ValidationSpec

/-- The mapping phase of `generate_fa40_header` (everything before the
fixed header metadata is added). -/
def processMappings (metadata : Value) (connector : Connector) : Except Unit Header :=
  match connector.mappings with
  | none => Except.ok initHeader
  | some sections => processSections metadata sections initHeader

/-- The finalization of `generate_fa40_header`: unconditionally set
`Header Type`, `Version` and `Time Stamp` in the General Section, then
add `File Path` (the input file's containing directory) only when the
mapping phase left none. The wall-clock timestamp is a parameter. -/
def finalizeHeader (tiffFile now : String) (h : Header) : Header :=
  let h1 := headerSet h "General Section" "Header Type" (Value.vstr "FA4.0 standardized header")
  let h2 := headerSet h1 "General Section" "Version" (Value.vstr "v1.0")
  let h3 := headerSet h2 "General Section" "Time Stamp" (Value.vstr now)
  match fieldLookup h3 "General Section" "File Path" with
  | some _ => h3
  | none => headerSet h3 "General Section" "File Path" (Value.vstr (parentDir tiffFile))

/-- `FA40HeaderGenerator.generate_fa40_header` (the metadata tree comes
from the extractor collaborator; file output is I/O and out of scope). -/
def generateFA40Header (tiffFile now : String) (metadata : Value) (connector : Connector) :
    Except Unit Header :=
  match processMappings metadata connector with
  | Except.error e => Except.error e
  | Except.ok h => Except.ok (finalizeHeader tiffFile now h)

/-- Python `field_path.split(".", 1)` unpacked into two names: `none`
models the uncaught `ValueError` when the path has no dot. -/
def splitOnce (s : String) : Option (String × String) :=
  let pre := s.toList.takeWhile (fun c => c != '.')
  if pre.length = s.toList.length then none
  else some (String.mk pre, String.mk (s.toList.drop (pre.length + 1)))

/-- The validator's fixed `section_map`; unknown tokens pass through. -/
def mapSectionToken (s : String) : String :=
  if s = "general_section" then "General Section"
  else if s = "method_specific" then "Method Specific"
  else if s = "tool_specific" then "Tool Specific"
  else s

/-- The `validate_header` report. -/
structure ValidationResult where
  missing_required : List String
  present_optional : List String
  validation_errors : List String
  deriving DecidableEq, Repr

/-- The required-fields loop of `validate_header`: record a path when its
mapped section is absent or the field is absent within it; a dotless path
raises (`Except.error`). -/
def checkRequired (header : Header) : List String → Except Unit (List String)
  | [] => Except.ok []
  | p :: rest =>
    match splitOnce p with
    | none => Except.error ()
    | some (sec, fld) =>
      let actual := mapSectionToken sec
      let miss :=
        match sectionLookup header actual with
        | none => true
        | some fields => (dictLookup fields fld).isNone
      match checkRequired header rest with
      | Except.error e => Except.error e
      | Except.ok r => Except.ok (if miss then p :: r else r)

/-- The optional-fields loop of `validate_header`: record a path when its
mapped section and field are both present. -/
def checkOptional (header : Header) : List String → Except Unit (List String)
  | [] => Except.ok []
  | p :: rest =>
    match splitOnce p with
    | none => Except.error ()
    | some (sec, fld) =>
      let actual := mapSectionToken sec
      let pres :=
        match sectionLookup header actual with
        | none => false
        | some fields => (dictLookup fields fld).isSome
      match checkOptional header rest with
      | Except.error e => Except.error e
      | Except.ok r => Except.ok (if pres then p :: r else r)

/-- `FA40HeaderGenerator.validate_header`. -/
def validateHeader (connector : Connector) (header : Header) : Except Unit ValidationResult :=
  match connector.validation with
  | none => Except.ok ⟨[], [], []⟩
  | some vs =>
    match checkRequired header vs.required_fields with
    | Except.error e => Except.error e
    | Except.ok miss =>
      match checkOptional header vs.optional_fields with
      | Except.error e => Except.error e
      | Except.ok pres => Except.ok ⟨miss, pres, []⟩

example : resolveFieldValue sampleMetadata
    ⟨SourceSpec.multiple ["missing.source", "pillow.width", "another.missing"], none, none, none⟩ =
    Except.ok (Value.vint 1000) := rfl
example : resolveRaw sampleMetadata "filename" = Except.ok (Value.vstr "sample.tif") := rfl
example : resolveRaw sampleMetadata "file_size" = Except.ok (Value.vint 2048576) := rfl
example : parentDir "/test/sample.tif" = "/test" := rfl
example : parentDir "sample.tif" = "." := rfl

/-- C2: the claimed path-resolution behaviour fails on the code: the tag
dictionary at `pillow.tags_v2` holds the integer key `32001`, yet the
dotted path `pillow.tags_v2.32001` resolves to absent, because
`extract_value_from_source` only descends dictionaries by exact string
key — it has no all-digits integer fallback (and no sequence indexing);
string keys on the same dictionary do resolve. -/
theorem extract_value_int_key_unreachable :
    extractValueFromSource sampleMetadata "pillow.tags_v2" = Value.vdict sampleTags ∧
    (Key.kint 32001, Value.vstr "SemiShop v2.1") ∈ sampleTags ∧
    extractValueFromSource sampleMetadata "pillow.tags_v2.32001" = Value.vnone ∧
    extractValueFromSource sampleMetadata "pillow.tags_v2.ImageWidth" = Value.vint 1000 := by
  refine ⟨rfl, ?_, rfl, rfl⟩
  simp [sampleTags]

/-- The six transformation names `apply_transformation` dispatches on. -/
def knownTransformations : List String :=
  ["clean_string", "first_available_numeric", "first_available_string",
    "convert_to_iso8601", "dpi_to_nanometers", "standardize_color_mode"]

/-- The extraction names the extraction step dispatches on. -/
def knownExtractions : List String :=
  ["first_available_numeric", "first_available_string",
    "resolution_to_pixel_size", "dpi_to_nanometers"]

/-- C6: a transformation name outside the known set and an extraction name
outside the known set both act as the identity on every value; no error is
raised (the functions are total). -/
theorem unknown_names_act_as_identity (v : Value) (t e : String)
    (ht : t ∉ knownTransformations) (he : e ∉ knownExtractions) :
    applyTransformation v t = v ∧ applyExtraction e v = v := by
  simp only [knownTransformations, knownExtractions, List.mem_cons,
    List.not_mem_nil, or_false, not_or] at ht he
  obtain ⟨t1, t2, t3, t4, t5, t6⟩ := ht
  obtain ⟨e1, e2, e3, e4⟩ := he
  constructor
  · simp [applyTransformation, t1, t2, t3, t4, t5, t6]
  · simp [applyExtraction, e1, e2, e3, e4]

/-- Witness for C6 at the unknown names the repository's own tests use. -/
theorem unknown_names_act_as_identity_witness :
    applyTransformation (Value.vstr "test") "unknown_transformation" = Value.vstr "test" ∧
    applyExtraction "unknown_extraction" (Value.vstr "test") = Value.vstr "test" :=
  unknown_names_act_as_identity (Value.vstr "test") "unknown_transformation"
    "unknown_extraction" (by decide) (by decide)

/-- `checkRequired` succeeds exactly when every required path contains a
dot. -/
theorem checkRequired_ok_iff (header : Header) (ps : List String) :
    (∃ l, checkRequired header ps = Except.ok l) ↔ ∀ p ∈ ps, (splitOnce p).isSome := by
  induction ps with
  | nil => simp [checkRequired]
  | cons p rest ih =>
    cases hsp : splitOnce p with
    | none => simp [checkRequired, hsp]
    | some pr =>
      obtain ⟨sec, fld⟩ := pr
      cases hr : checkRequired header rest with
      | error e =>
        simp only [checkRequired, hsp, hr, List.forall_mem_cons]
        constructor
        · rintro ⟨l, hl⟩; exact absurd hl (by simp)
        · rintro ⟨-, hall⟩
          exact absurd (ih.mpr hall) (by rintro ⟨l, hl⟩; rw [hr] at hl; exact absurd hl (by simp))
      | ok r =>
        simp only [checkRequired, hsp, hr, List.forall_mem_cons]
        constructor
        · intro _; exact ⟨by simp [hsp], ih.mp ⟨r, hr⟩⟩
        · intro _; exact ⟨_, rfl⟩

/-- `checkOptional` succeeds exactly when every optional path contains a
dot. -/
theorem checkOptional_ok_iff (header : Header) (ps : List String) :
    (∃ l, checkOptional header ps = Except.ok l) ↔ ∀ p ∈ ps, (splitOnce p).isSome := by
  induction ps with
  | nil => simp [checkOptional]
  | cons p rest ih =>
    cases hsp : splitOnce p with
    | none => simp [checkOptional, hsp]
    | some pr =>
      obtain ⟨sec, fld⟩ := pr
      cases hr : checkOptional header rest with
      | error e =>
        simp only [checkOptional, hsp, hr, List.forall_mem_cons]
        constructor
        · rintro ⟨l, hl⟩; exact absurd hl (by simp)
        · rintro ⟨-, hall⟩
          exact absurd (ih.mpr hall) (by rintro ⟨l, hl⟩; rw [hr] at hl; exact absurd hl (by simp))
      | ok r =>
        simp only [checkOptional, hsp, hr, List.forall_mem_cons]
        constructor
        · intro _; exact ⟨by simp [hsp], ih.mp ⟨r, hr⟩⟩
        · intro _; exact ⟨_, rfl⟩

/-- A connector whose validation spec holds a path with no dot. -/
def badConnector : Connector := ⟨none, some ⟨["nodot"], []⟩⟩

/-- A well-formed connector validation spec (every path dotted). -/
def okConnector : Connector :=
  ⟨none, some ⟨["general_section.File Name"], ["tool_specific.Tool Name"]⟩⟩

/-- C10: on a connector whose `required_fields` holds the dotless path
`"nodot"`, `validate_header` raises an uncaught `ValueError` (modelled as
`Except.error`) instead of returning a report; in general, for a present
validation spec the validator returns a report exactly when every
required and optional path contains at least one dot. -/
theorem validate_header_dotless_path_raises :
    validateHeader badConnector initHeader = Except.error () ∧
    ∀ (c : Connector) (vs : ValidationSpec) (header : Header), c.validation = some vs →
      ((∃ r, validateHeader c header = Except.ok r) ↔
        ∀ p ∈ vs.required_fields ++ vs.optional_fields, (splitOnce p).isSome) := by
  refine ⟨rfl, ?_⟩
  intro c vs header hv
  simp only [validateHeader, hv, List.forall_mem_append]
  cases hr : checkRequired header vs.required_fields with
  | error e =>
    constructor
    · rintro ⟨r, hrr⟩; exact absurd hrr (by simp)
    · rintro ⟨hall, -⟩
      exact absurd ((checkRequired_ok_iff header vs.required_fields).mpr hall)
        (by rintro ⟨l, hl⟩; rw [hr] at hl; exact absurd hl (by simp))
  | ok miss =>
    cases ho : checkOptional header vs.optional_fields with
    | error e =>
      constructor
      · rintro ⟨r, hrr⟩; exact absurd hrr (by simp)
      · rintro ⟨-, hall⟩
        exact absurd ((checkOptional_ok_iff header vs.optional_fields).mpr hall)
          (by rintro ⟨l, hl⟩; rw [ho] at hl; exact absurd hl (by simp))
    | ok pres =>
      constructor
      · intro _
        exact ⟨(checkRequired_ok_iff header vs.required_fields).mp ⟨miss, hr⟩,
          (checkOptional_ok_iff header vs.optional_fields).mp ⟨pres, ho⟩⟩
      · intro _; exact ⟨_, rfl⟩

/-- Witness for C10's general part on a dotted validation spec. -/
theorem validate_header_dotless_path_raises_witness :
    ∃ r, validateHeader okConnector initHeader = Except.ok r :=
  (validate_header_dotless_path_raises.2 okConnector
    ⟨["general_section.File Name"], ["tool_specific.Tool Name"]⟩ initHeader rfl).mpr
    (by decide)

/-- Whether a dotted path is missing from a header: its mapped section is
absent, or the field key is absent within it (the validator's test). -/
def pathMissing (header : Header) (p : String) : Bool :=
  match splitOnce p with
  | some (sec, fld) =>
    match sectionLookup header (mapSectionToken sec) with
    | none => true
    | some fields => (dictLookup fields fld).isNone
  | none => true

/-- On dotted paths, `checkRequired` returns exactly the missing ones, in
order. -/
theorem checkRequired_eq_filter (header : Header) (ps : List String)
    (h : ∀ p ∈ ps, (splitOnce p).isSome) :
    checkRequired header ps = Except.ok (ps.filter (fun p => pathMissing header p)) := by
  induction ps with
  | nil => rfl
  | cons p rest ih =>
    have hp := h p (List.mem_cons_self p rest)
    cases hsp : splitOnce p with
    | none => rw [hsp] at hp; simp at hp
    | some pr =>
      obtain ⟨sec, fld⟩ := pr
      have hrest := ih (fun q hq => h q (List.mem_cons_of_mem p hq))
      simp only [checkRequired, hsp, hrest, List.filter_cons]
      simp only [pathMissing, hsp]

/-- On dotted paths, `checkOptional` returns exactly the present ones, in
order. -/
theorem checkOptional_eq_filter (header : Header) (ps : List String)
    (h : ∀ p ∈ ps, (splitOnce p).isSome) :
    checkOptional header ps = Except.ok (ps.filter (fun p => !(pathMissing header p))) := by
  induction ps with
  | nil => rfl
  | cons p rest ih =>
    have hp := h p (List.mem_cons_self p rest)
    cases hsp : splitOnce p with
    | none => rw [hsp] at hp; simp at hp
    | some pr =>
      obtain ⟨sec, fld⟩ := pr
      have hrest := ih (fun q hq => h q (List.mem_cons_of_mem p hq))
      simp only [checkOptional, hsp, hrest, List.filter_cons]
      simp only [pathMissing, hsp]
      cases hsl : sectionLookup header (mapSectionToken sec) with
      | none => simp
      | some fields => cases hd : dictLookup fields fld <;> simp

/-- C5: with a validation spec whose paths are all dotted, the validator
returns a report whose `missing_required` holds a required path exactly
when its mapped output section is absent from the header or its field key
is absent within that section, and whose `present_optional` holds an
optional path exactly when section and field are both present; a path
naming a field no mapping declares simply tests as missing/not-present
(the test only inspects the header), never as an error. -/
theorem validate_header_characterization (c : Connector) (vs : ValidationSpec)
    (header : Header) (hv : c.validation = some vs)
    (hreq : ∀ p ∈ vs.required_fields, (splitOnce p).isSome)
    (hopt : ∀ p ∈ vs.optional_fields, (splitOnce p).isSome) :
    validateHeader c header =
      Except.ok ⟨vs.required_fields.filter (fun p => pathMissing header p),
        vs.optional_fields.filter (fun p => !(pathMissing header p)), []⟩ ∧
    (∀ p, p ∈ vs.required_fields.filter (fun p => pathMissing header p) ↔
      p ∈ vs.required_fields ∧ pathMissing header p = true) ∧
    (∀ p, p ∈ vs.optional_fields.filter (fun p => !(pathMissing header p)) ↔
      p ∈ vs.optional_fields ∧ pathMissing header p = false) := by
  refine ⟨?_, ?_, ?_⟩
  · simp only [validateHeader, hv, checkRequired_eq_filter header _ hreq,
      checkOptional_eq_filter header _ hopt]
  · intro p; simp [List.mem_filter]
  · intro p; simp [List.mem_filter]

/-- The validation spec of `okConnector`. -/
def okValidation : ValidationSpec :=
  ⟨["general_section.File Name"], ["tool_specific.Tool Name"]⟩

/-- A partially filled header for the validator witnesses. -/
def c5Header : Header :=
  [("General Section", [("File Name", Value.vstr "test.tif")]),
    ("Tool Specific", [("Tool Name", Value.vstr "SemiShop v2.1")])]

/-- Witness for C5: a present required field is not reported missing, and
a present optional field is reported present. -/
theorem validate_header_characterization_witness :
    validateHeader okConnector c5Header =
      Except.ok ⟨[], ["tool_specific.Tool Name"], []⟩ :=
  ((validate_header_characterization okConnector okValidation c5Header rfl
    (by decide) (by decide)).1).trans (congrArg Except.ok (by decide))

/-- Assigning a key makes it present with the new value. -/
theorem dictLookup_assign_self (l : List (String × Value)) (k : String) (v : Value) :
    dictLookup (dictAssign l k v) k = some v := by
  induction l with
  | nil => simp [dictAssign, dictLookup]
  | cons e rest ih =>
    obtain ⟨k2, v2⟩ := e
    by_cases hk : k2 = k
    · simp [dictAssign, dictLookup, hk]
    · simp [dictAssign, dictLookup, hk, ih]

/-- Assigning a key leaves every other key unchanged. -/
theorem dictLookup_assign_other (l : List (String × Value)) (k : String) (v : Value)
    (k2 : String) (h : k2 ≠ k) :
    dictLookup (dictAssign l k v) k2 = dictLookup l k2 := by
  induction l with
  | nil => simp [dictAssign, dictLookup, Ne.symm h]
  | cons e rest ih =>
    obtain ⟨k3, v3⟩ := e
    by_cases hk : k3 = k
    · subst hk
      simp [dictAssign, dictLookup, Ne.symm h]
    · simp [dictAssign, dictLookup, hk, ih]

/-- `headerSet` updates the addressed section (creating it at the end when
absent, which for the engine's fixed skeleton never happens). -/
theorem sectionLookup_headerSet_self (h : Header) (sec name : String) (val : Value) :
    sectionLookup (headerSet h sec name val) sec =
      some (dictAssign ((sectionLookup h sec).getD []) name val) := by
  induction h with
  | nil => simp [headerSet, sectionLookup]
  | cons e rest ih =>
    obtain ⟨s2, fields⟩ := e
    by_cases hs : s2 = sec
    · simp [headerSet, sectionLookup, hs]
    · simp [headerSet, sectionLookup, hs, ih]

/-- `headerSet` leaves the other sections unchanged. -/
theorem sectionLookup_headerSet_other (h : Header) (sec name : String) (val : Value)
    (sec2 : String) (hne : sec2 ≠ sec) :
    sectionLookup (headerSet h sec name val) sec2 = sectionLookup h sec2 := by
  induction h with
  | nil => simp [headerSet, sectionLookup, Ne.symm hne]
  | cons e rest ih =>
    obtain ⟨s3, fields⟩ := e
    by_cases hs : s3 = sec
    · subst hs
      simp [headerSet, sectionLookup, Ne.symm hne]
    · simp [headerSet, sectionLookup, hs, ih]

/-- A field just set is found. -/
theorem fieldLookup_headerSet_self (h : Header) (sec name : String) (val : Value) :
    fieldLookup (headerSet h sec name val) sec name = some val := by
  simp [fieldLookup, sectionLookup_headerSet_self, dictLookup_assign_self]

/-- Setting one field leaves the other fields of the section unchanged. -/
theorem fieldLookup_headerSet_other_name (h : Header) (sec name : String) (val : Value)
    (name2 : String) (hne : name2 ≠ name) :
    fieldLookup (headerSet h sec name val) sec name2 = fieldLookup h sec name2 := by
  simp only [fieldLookup, sectionLookup_headerSet_self]
  cases hsl : sectionLookup h sec with
  | none => simp [dictLookup_assign_other _ _ _ _ hne, dictLookup, Ne.symm hne]
  | some fields => simp [dictLookup_assign_other _ _ _ _ hne]

/-- Setting a field of one section leaves the other sections unchanged. -/
theorem fieldLookup_headerSet_other_sec (h : Header) (sec name : String) (val : Value)
    (sec2 name2 : String) (hne : sec2 ≠ sec) :
    fieldLookup (headerSet h sec name val) sec2 name2 = fieldLookup h sec2 name2 := by
  simp [fieldLookup, sectionLookup_headerSet_other _ _ _ _ _ hne]

/-- C3: a resolved non-absent field is written into its target section as
a `{Value, Unit}` envelope exactly when the field definition's unit is
declared (truthy) and the field name belongs to the fixed allow-list
`{Image Width, Image Height, File Size, Pixel Width, Pixel Height}`; in
every other case (including a unit-bearing field outside the allow-list)
the bare value is written. -/
theorem assembler_unit_envelope (metadata : Value) (target name : String)
    (cfg : FieldConfig) (rest : List (String × FieldConfig)) (h : Header) (v : Value)
    (hres : resolveFieldValue metadata cfg = Except.ok v) (hv : v ≠ Value.vnone) :
    ((∃ u, cfg.unit = some u ∧ u ≠ "") ∧ name ∈ unitAllowList →
      processSectionFields metadata target ((name, cfg) :: rest) h =
        processSectionFields metadata target rest
          (headerSet h target name
            (Value.vdict [(Key.kstr "Value", v), (Key.kstr "Unit", Value.vstr (cfg.unit.getD ""))]))) ∧
    (¬((∃ u, cfg.unit = some u ∧ u ≠ "") ∧ name ∈ unitAllowList) →
      processSectionFields metadata target ((name, cfg) :: rest) h =
        processSectionFields metadata target rest (headerSet h target name v)) := by
  have hcond : (cfg.unit.getD "" ≠ "" ∧ name ∈ unitAllowList) ↔
      (∃ u, cfg.unit = some u ∧ u ≠ "") ∧ name ∈ unitAllowList := by
    cases hu : cfg.unit with
    | none => simp
    | some u => simp
  constructor
  · intro hc
    have hb := hcond.mpr hc
    cases v <;> simp_all [processSectionFields, hres]
  · intro hc
    have hb := (not_iff_not.mpr hcond).mpr hc
    cases v <;> simp_all [processSectionFields, hres] <;>
      (rw [if_neg]; rintro ⟨h1, h2⟩; exact hb h1 h2)

/-- The Image Width field definition of the fixture connector. -/
def imageWidthConfig : FieldConfig :=
  ⟨SourceSpec.multiple ["pillow.width", "pillow.tags_v2.ImageWidth"],
    none, some "first_available_numeric", some "pixels"⟩

/-- Witness for C3: `Image Width` with unit `"pixels"` is enveloped. -/
theorem assembler_unit_envelope_witness :
    processSectionFields sampleMetadata "General Section"
        [("Image Width", imageWidthConfig)] initHeader =
      processSectionFields sampleMetadata "General Section" []
        (headerSet initHeader "General Section" "Image Width"
          (Value.vdict [(Key.kstr "Value", Value.vint 1000),
            (Key.kstr "Unit", Value.vstr "pixels")])) :=
  (assembler_unit_envelope sampleMetadata "General Section" "Image Width"
    imageWidthConfig [] initHeader (Value.vint 1000) rfl (by simp)).1
    ⟨⟨"pixels", rfl, by decide⟩, by decide⟩

/-- C7: after the mapping phase produced `h`, `generate_fa40_header`
unconditionally sets exactly `Header Type`, `Version` and `Time Stamp` in
the General Section (overwriting mapping-produced values of those names),
writes `File Path` (the input file's containing directory) if and only if
the mapping wrote none, keeps a mapping-written `File Path`, and leaves
every other field and every other section unchanged. -/
theorem generate_header_finalization (tiffFile now : String) (metadata : Value)
    (connector : Connector) (h H : Header)
    (hpm : processMappings metadata connector = Except.ok h)
    (hgen : generateFA40Header tiffFile now metadata connector = Except.ok H) :
    fieldLookup H "General Section" "Header Type" =
      some (Value.vstr "FA4.0 standardized header") ∧
    fieldLookup H "General Section" "Version" = some (Value.vstr "v1.0") ∧
    fieldLookup H "General Section" "Time Stamp" = some (Value.vstr now) ∧
    (fieldLookup h "General Section" "File Path" = none →
      fieldLookup H "General Section" "File Path" = some (Value.vstr (parentDir tiffFile))) ∧
    (∀ fp, fieldLookup h "General Section" "File Path" = some fp →
      fieldLookup H "General Section" "File Path" = some fp) ∧
    (∀ name, name ∉ ["Header Type", "Version", "Time Stamp", "File Path"] →
      fieldLookup H "General Section" name = fieldLookup h "General Section" name) ∧
    (∀ sec, sec ≠ "General Section" → sectionLookup H sec = sectionLookup h sec) := by
  have hH : H = finalizeHeader tiffFile now h := by
    unfold generateFA40Header at hgen
    rw [hpm] at hgen
    cases hgen
    rfl
  subst hH
  unfold finalizeHeader
  dsimp only
  have hfp3 : fieldLookup
      (headerSet (headerSet (headerSet h "General Section" "Header Type"
          (Value.vstr "FA4.0 standardized header")) "General Section" "Version"
          (Value.vstr "v1.0")) "General Section" "Time Stamp" (Value.vstr now))
      "General Section" "File Path" = fieldLookup h "General Section" "File Path" := by
    rw [fieldLookup_headerSet_other_name _ _ _ _ _ (by decide : ("File Path" : String) ≠ "Time Stamp"),
      fieldLookup_headerSet_other_name _ _ _ _ _ (by decide : ("File Path" : String) ≠ "Version"),
      fieldLookup_headerSet_other_name _ _ _ _ _ (by decide : ("File Path" : String) ≠ "Header Type")]
  rw [hfp3]
  cases hfp : fieldLookup h "General Section" "File Path" with
  | some fp =>
    refine ⟨?_, ?_, ?_, ?_, ?_, ?_, ?_⟩
    · rw [fieldLookup_headerSet_other_name _ _ _ _ _ (by decide : ("Header Type" : String) ≠ "Time Stamp"),
        fieldLookup_headerSet_other_name _ _ _ _ _ (by decide : ("Header Type" : String) ≠ "Version"),
        fieldLookup_headerSet_self]
    · rw [fieldLookup_headerSet_other_name _ _ _ _ _ (by decide : ("Version" : String) ≠ "Time Stamp"),
        fieldLookup_headerSet_self]
    · rw [fieldLookup_headerSet_self]
    · intro hnone; exact Option.noConfusion hnone
    · intro fp2 hfp2
      dsimp only
      rw [hfp3, hfp]
      exact hfp2
    · intro name hname
      simp only [List.mem_cons, List.not_mem_nil, or_false, not_or] at hname
      obtain ⟨n1, n2, n3, n4⟩ := hname
      rw [fieldLookup_headerSet_other_name _ _ _ _ _ n3,
        fieldLookup_headerSet_other_name _ _ _ _ _ n2,
        fieldLookup_headerSet_other_name _ _ _ _ _ n1]
    · intro sec hsec
      rw [sectionLookup_headerSet_other _ _ _ _ _ hsec,
        sectionLookup_headerSet_other _ _ _ _ _ hsec,
        sectionLookup_headerSet_other _ _ _ _ _ hsec]
  | none =>
    refine ⟨?_, ?_, ?_, ?_, ?_, ?_, ?_⟩
    · rw [fieldLookup_headerSet_other_name _ _ _ _ _ (by decide : ("Header Type" : String) ≠ "File Path"),
        fieldLookup_headerSet_other_name _ _ _ _ _ (by decide : ("Header Type" : String) ≠ "Time Stamp"),
        fieldLookup_headerSet_other_name _ _ _ _ _ (by decide : ("Header Type" : String) ≠ "Version"),
        fieldLookup_headerSet_self]
    · rw [fieldLookup_headerSet_other_name _ _ _ _ _ (by decide : ("Version" : String) ≠ "File Path"),
        fieldLookup_headerSet_other_name _ _ _ _ _ (by decide : ("Version" : String) ≠ "Time Stamp"),
        fieldLookup_headerSet_self]
    · rw [fieldLookup_headerSet_other_name _ _ _ _ _ (by decide : ("Time Stamp" : String) ≠ "File Path"),
        fieldLookup_headerSet_self]
    · intro _; rw [fieldLookup_headerSet_self]
    · intro fp2 hfp2; exact Option.noConfusion hfp2
    · intro name hname
      simp only [List.mem_cons, List.not_mem_nil, or_false, not_or] at hname
      obtain ⟨n1, n2, n3, n4⟩ := hname
      rw [fieldLookup_headerSet_other_name _ _ _ _ _ n4,
        fieldLookup_headerSet_other_name _ _ _ _ _ n3,
        fieldLookup_headerSet_other_name _ _ _ _ _ n2,
        fieldLookup_headerSet_other_name _ _ _ _ _ n1]
    · intro sec hsec
      rw [sectionLookup_headerSet_other _ _ _ _ _ hsec,
        sectionLookup_headerSet_other _ _ _ _ _ hsec,
        sectionLookup_headerSet_other _ _ _ _ _ hsec,
        sectionLookup_headerSet_other _ _ _ _ _ hsec]

/-- Witness for C7 on an empty connector: the mapping phase leaves the
skeleton, and finalization injects the three constants and the file
path. -/
theorem generate_header_finalization_witness :
    fieldLookup (finalizeHeader "/test/sample.tif" "2024-01-01T00:00:00" initHeader)
        "General Section" "Header Type" = some (Value.vstr "FA4.0 standardized header") ∧
    fieldLookup (finalizeHeader "/test/sample.tif" "2024-01-01T00:00:00" initHeader)
        "General Section" "File Path" = some (Value.vstr "/test") :=
  have h := generate_header_finalization "/test/sample.tif" "2024-01-01T00:00:00"
    sampleMetadata ⟨none, none⟩ initHeader
    (finalizeHeader "/test/sample.tif" "2024-01-01T00:00:00" initHeader) rfl rfl
  ⟨h.1, (h.2.2.2.1 rfl).trans (by rw [show parentDir "/test/sample.tif" = "/test" from rfl])⟩

/-- `True` on every value except the absent sentinel. -/
def isNotNone : Value → Bool
  | Value.vnone => false
  | _ => true

/-- The final value one source contributes: `None` when the raw resolution
raised or was `None`, otherwise the raw value after the transformation and
extraction passes. -/
def finalValue (cfg : FieldConfig) (value : Value) : Value :=
  match value with
  | Value.vnone => Value.vnone
  | v => applyExtraction (cfg.extraction.getD "as_is") (transformStep cfg v)

/-- The per-source final value of the fallback characterization. -/
def sourceFinal (metadata : Value) (cfg : FieldConfig) (src : String) : Value :=
  match resolveRaw metadata src with
  | Except.error _ => Value.vnone
  | Except.ok value => finalValue cfg value

/-- A non-absent value passes the return-or-continue test. -/
theorem okNotNone (Y : Value) (k : Except Unit Value) (hne : Y = Value.vnone → False) :
    Except.ok Y = if isNotNone Y then Except.ok Y else k := by
  cases Y
  · exact absurd rfl hne
  all_goals simp [isNotNone]

/-- One loop iteration returns the final value exactly when it is
non-absent. -/
theorem stepValue_eq (cfg : FieldConfig) (value : Value) (k : Except Unit Value) :
    stepValue cfg value k =
      if isNotNone (finalValue cfg value) then Except.ok (finalValue cfg value) else k := by
  cases value <;> simp only [stepValue, finalValue]
  case vnone => simp [isNotNone]
  all_goals
    split
    · next heq => rw [heq]; simp [isNotNone]
    · next w heq => exact okNotNone _ _ heq

/-- The source loop returns the first non-absent final value, absent when
the sources are exhausted — provided no source raises. -/
theorem resolveSources_spec (metadata : Value) (cfg : FieldConfig) (srcs : List String)
    (h : ∀ src ∈ srcs, resolveRaw metadata src ≠ Except.error ()) :
    resolveSources metadata cfg srcs =
      Except.ok (((srcs.map (sourceFinal metadata cfg)).find? isNotNone).getD Value.vnone) := by
  induction srcs with
  | nil => rfl
  | cons src rest ih =>
    have hsrc := h src (List.mem_cons_self src rest)
    have hrest := ih (fun q hq => h q (List.mem_cons_of_mem src hq))
    cases hraw : resolveRaw metadata src with
    | error e => cases e; exact absurd hraw hsrc
    | ok value =>
      have hsf : sourceFinal metadata cfg src = finalValue cfg value := by
        simp [sourceFinal, hraw]
      simp only [resolveSources, hraw, stepValue_eq, List.map_cons, List.find?_cons, hsf]
      cases hnn : isNotNone (finalValue cfg value) with
      | true => simp [hnn]
      | false => simp [hnn, hrest]

/-- C1: for every metadata tree and field definition whose sources all
resolve without raising, `resolve_field_value` consults the sources in
declared order and returns the final value (transformation pass, then
extraction pass) of the first source whose final value is non-absent;
sources whose raw or final value is absent are skipped, and an exhausted
source list yields absent. -/
theorem resolve_field_first_nonabsent_wins (metadata : Value) (cfg : FieldConfig)
    (h : ∀ src ∈ sourcesList cfg.source, resolveRaw metadata src ≠ Except.error ()) :
    resolveFieldValue metadata cfg =
      Except.ok ((((sourcesList cfg.source).map (sourceFinal metadata cfg)).find?
        isNotNone).getD Value.vnone) :=
  resolveSources_spec metadata cfg (sourcesList cfg.source) h

/-- The spec's fallback scenario: two absent sources around a populated
one. -/
def fallbackConfig : FieldConfig :=
  ⟨SourceSpec.multiple ["missing.source", "pillow.width", "another.missing"], none, none, none⟩

/-- Witness for C1: the first populated source wins and absent sources are
skipped without error. -/
theorem resolve_field_first_nonabsent_wins_witness :
    resolveFieldValue sampleMetadata fallbackConfig = Except.ok (Value.vint 1000) := by
  have h := resolve_field_first_nonabsent_wins sampleMetadata fallbackConfig
    (by intro src hsrc; fin_cases hsrc <;> (intro hc; exact nomatch hc))
  exact h.trans (congrArg Except.ok rfl)

/-- `mkRat` as a field division. -/
theorem mkRat_eq_div_cast (n : ℤ) (d : ℕ) : mkRat n d = (n : ℚ) / (d : ℚ) := by
  rw [Rat.mkRat_eq_divInt, Rat.divInt_eq_div]
  norm_num

/-- The numeric reading the `if dpi and dpi > 0:` guard applies to a
parsed value (booleans count as 1/0 in Python arithmetic). -/
def dpiOf : Value → Option ℚ
  | Value.vint n => some (n : ℚ)
  | Value.vfloat q => some q
  | Value.vbool b => some (if b then 1 else 0)
  | _ => none

/-- C8: `resolution_to_pixel_size` is total and returns absent when the
input parses to no number, to zero or to a negative number, and otherwise
`25400000 / dpi` rounded to two decimal places; in particular 96 DPI gives
264583.33 and 72 DPI gives 352777.78. -/
theorem resolution_to_pixel_size_spec (v : Value) :
    (dpiOf (parseFirstNumber v) = none → resolutionToPixelSize v = Value.vnone) ∧
    (∀ q : ℚ, dpiOf (parseFirstNumber v) = some q → q ≤ 0 →
      resolutionToPixelSize v = Value.vnone) ∧
    (∀ q : ℚ, dpiOf (parseFirstNumber v) = some q → 0 < q →
      resolutionToPixelSize v = Value.vfloat (pyRound2 (25400000 / q))) ∧
    resolutionToPixelSize (Value.vint 96) = Value.vfloat ((26458333 : ℚ) / 100) ∧
    resolutionToPixelSize (Value.vint 72) = Value.vfloat ((35277778 : ℚ) / 100) ∧
    resolutionToPixelSize (Value.vint 0) = Value.vnone ∧
    resolutionToPixelSize (Value.vint (-10)) = Value.vnone := by
  have h96 : resolutionToPixelSize (Value.vint 96) = Value.vfloat ((26458333 : ℚ) / 100) := by
    show Value.vfloat (pyRound2 (25400000 / ((96 : ℤ) : ℚ))) = Value.vfloat ((26458333 : ℚ) / 100)
    have e1 : (25400000 : ℚ) / ((96 : ℤ) : ℚ) = mkRat 25400000 96 := by
      rw [mkRat_eq_div_cast]; norm_num
    have e2 : pyRound2 (mkRat 25400000 96) = mkRat 26458333 100 := by decide
    rw [e1, e2, mkRat_eq_div_cast]; norm_num
  have h72 : resolutionToPixelSize (Value.vint 72) = Value.vfloat ((35277778 : ℚ) / 100) := by
    show Value.vfloat (pyRound2 (25400000 / ((72 : ℤ) : ℚ))) = Value.vfloat ((35277778 : ℚ) / 100)
    have e1 : (25400000 : ℚ) / ((72 : ℤ) : ℚ) = mkRat 25400000 72 := by
      rw [mkRat_eq_div_cast]; norm_num
    have e2 : pyRound2 (mkRat 25400000 72) = mkRat 17638889 50 := by decide
    rw [e1, e2, mkRat_eq_div_cast]; norm_num
  refine ⟨?_, ?_, ?_, h96, h72, rfl, rfl⟩
  · intro hnone
    cases hp : parseFirstNumber v <;> rw [hp] at hnone <;>
      simp [dpiOf] at hnone <;> simp [resolutionToPixelSize, hp]
  · intro q hq hle
    cases hp : parseFirstNumber v <;> rw [hp] at hq <;> simp [dpiOf] at hq
    case vint n =>
      subst hq
      have hn : ¬(0 < n) := by
        intro hpos
        have : (0 : ℚ) < (n : ℚ) := by exact_mod_cast hpos
        linarith
      simp [resolutionToPixelSize, hp, hn]
    case vfloat q2 =>
      subst hq
      have hn : ¬(0 < q2) := by linarith
      simp [resolutionToPixelSize, hp, hn]
    case vbool b =>
      cases b
      · simp at hq
        subst hq
        simp [resolutionToPixelSize, hp]
      · simp at hq
        subst hq
        norm_num at hle
  · intro q hq hpos
    cases hp : parseFirstNumber v <;> rw [hp] at hq <;> simp [dpiOf] at hq
    case vint n =>
      subst hq
      have hn : 0 < n := by exact_mod_cast hpos
      simp [resolutionToPixelSize, hp, hn]
    case vfloat q2 =>
      subst hq
      simp [resolutionToPixelSize, hp, hpos]
    case vbool b =>
      cases b
      · simp at hq
        subst hq
        norm_num at hpos
      · simp at hq
        subst hq
        simp [resolutionToPixelSize, hp]

/-- Witness for C8 applying the general branches at concrete inputs. -/
theorem resolution_to_pixel_size_spec_witness :
    resolutionToPixelSize (Value.vstr "no numbers") = Value.vnone ∧
    resolutionToPixelSize (Value.vint 0) = Value.vnone ∧
    resolutionToPixelSize (Value.vint 300) =
      Value.vfloat (pyRound2 (25400000 / ((300 : ℤ) : ℚ))) :=
  ⟨(resolution_to_pixel_size_spec (Value.vstr "no numbers")).1 rfl,
    (resolution_to_pixel_size_spec (Value.vint 0)).2.1 0 rfl (by norm_num),
    (resolution_to_pixel_size_spec (Value.vint 300)).2.2.1 ((300 : ℤ) : ℚ) rfl (by norm_num)⟩

/-- The first of the six formats (in the claims' order) that parses a
string. -/
def firstMatchingFormat : List (List FmtTok) → String → Option RawDT
  | [], _ => none
  | f :: fs, s =>
    match strptime f s with
    | some r => some r
    | none => firstMatchingFormat fs s

/-- A two-digit field match consumes input: its rest is a suffix. -/
theorem matchTwoDigits_subset (lo1 hi1 lo2 hi2 : Char) (cs : List Char) (v : Nat)
    (rest : List Char) (h : matchTwoDigits lo1 hi1 lo2 hi2 cs = some (v, rest)) :
    ∀ x ∈ rest, x ∈ cs := by
  match cs with
  | [] => exact absurd h (by simp [matchTwoDigits])
  | [c] => exact absurd h (by simp [matchTwoDigits])
  | c1 :: c2 :: t =>
    by_cases hc : lo1 ≤ c1 ∧ c1 ≤ hi1 ∧ lo2 ≤ c2 ∧ c2 ≤ hi2
    · rw [matchTwoDigits, if_pos hc] at h
      cases h
      intro x hx
      exact List.mem_cons_of_mem _ (List.mem_cons_of_mem _ hx)
    · rw [matchTwoDigits, if_neg hc] at h
      exact absurd h (by simp)

/-- A one-digit field match consumes input: its rest is a suffix. -/
theorem matchOneDigit_subset (lo hi : Char) (cs : List Char) (v : Nat)
    (rest : List Char) (h : matchOneDigit lo hi cs = some (v, rest)) :
    ∀ x ∈ rest, x ∈ cs := by
  match cs with
  | [] => exact absurd h (by simp [matchOneDigit])
  | c :: t =>
    by_cases hc : lo ≤ c ∧ c ≤ hi
    · rw [matchOneDigit, if_pos hc] at h
      cases h
      intro x hx
      exact List.mem_cons_of_mem _ hx
    · rw [matchOneDigit, if_neg hc] at h
      exact absurd h (by simp)

/-- A year match consumes input: its rest is a suffix. -/
theorem matchYear_subset (cs : List Char) (v : Nat) (rest : List Char)
    (h : matchYear cs = some (v, rest)) : ∀ x ∈ rest, x ∈ cs := by
  match cs with
  | [] => exact absurd h (by simp [matchYear])
  | [a] => exact absurd h (by simp [matchYear])
  | [a, b] => exact absurd h (by simp [matchYear])
  | [a, b, c] => exact absurd h (by simp [matchYear])
  | a :: b :: c :: e :: t =>
    by_cases hc : a.isDigit ∧ b.isDigit ∧ c.isDigit ∧ e.isDigit
    · rw [matchYear, if_pos hc] at h
      cases h
      intro x hx
      exact List.mem_cons_of_mem _ (List.mem_cons_of_mem _
        (List.mem_cons_of_mem _ (List.mem_cons_of_mem _ hx)))
    · rw [matchYear, if_neg hc] at h
      exact absurd h (by simp)

/-- Every field alternative consumes input: its rest is a suffix. -/
theorem fieldAlts_subset (tok : FmtTok) (cs : List Char) (v : Nat) (rest : List Char)
    (h : (v, rest) ∈ fieldAlts tok cs) : ∀ x ∈ rest, x ∈ cs := by
  cases tok <;> simp [fieldAlts] at h
  case Y => exact matchYear_subset cs v rest h
  case m =>
    rcases h with h | h | h
    · exact matchTwoDigits_subset _ _ _ _ cs v rest h.symm
    · exact matchTwoDigits_subset _ _ _ _ cs v rest h.symm
    · exact matchOneDigit_subset _ _ cs v rest h.symm
  case d =>
    rcases h with h | h | h | h
    · exact matchTwoDigits_subset _ _ _ _ cs v rest h.symm
    · exact matchTwoDigits_subset _ _ _ _ cs v rest h.symm
    · exact matchTwoDigits_subset _ _ _ _ cs v rest h.symm
    · exact matchOneDigit_subset _ _ cs v rest h.symm
  case H =>
    rcases h with h | h | h
    · exact matchTwoDigits_subset _ _ _ _ cs v rest h.symm
    · exact matchTwoDigits_subset _ _ _ _ cs v rest h.symm
    · exact matchOneDigit_subset _ _ cs v rest h.symm
  case M =>
    rcases h with h | h
    · exact matchTwoDigits_subset _ _ _ _ cs v rest h.symm
    · exact matchOneDigit_subset _ _ cs v rest h.symm
  case S =>
    rcases h with h | h | h
    · exact matchTwoDigits_subset _ _ _ _ cs v rest h.symm
    · exact matchTwoDigits_subset _ _ _ _ cs v rest h.symm
    · exact matchOneDigit_subset _ _ cs v rest h.symm

/-- Any match of a format consumed every literal character of the format
from the input. -/
theorem runFmt_lit_mem (fmt : List FmtTok) : ∀ (cs : List Char) (acc : RawDT)
    (r : RawDT × List Char), r ∈ runFmt fmt cs acc →
    ∀ c : Char, FmtTok.lit c ∈ fmt → c ∈ cs := by
  induction fmt with
  | nil => intro cs acc r hr c hc; simp at hc
  | cons tok toks ih =>
    intro cs acc r hr c hc
    cases tok
    case lit c2 =>
      cases cs with
      | nil => simp [runFmt] at hr
      | cons c3 rest =>
        by_cases h3 : c3 = c2
        · subst h3
          rw [runFmt, if_pos rfl] at hr
          simp only [List.mem_cons] at hc
          rcases hc with hc | hc
          · cases hc
            exact List.mem_cons_self _ _
          · exact List.mem_cons_of_mem _ (ih rest acc r hr c hc)
        · rw [runFmt, if_neg h3] at hr
          simp at hr
    all_goals
      simp only [runFmt, List.mem_flatMap] at hr
      obtain ⟨p, hp, hrp⟩ := hr
      obtain ⟨pv, prest⟩ := p
      simp only [List.mem_cons] at hc
      rcases hc with hc | hc
      · exact absurd hc (by simp)
      · exact fieldAlts_subset _ cs pv prest hp c (ih prest _ r hrp c hc)

/-- A successful TIFF-format parse implies the string held both a colon
and a space (so the guard `":" in s and " " in s` never suppresses a parse
that would have succeeded). -/
theorem strptime_tiff_has_colon_space (s : String) (r : RawDT)
    (h : strptime fmtTiff s = some r) : ':' ∈ s.toList ∧ ' ' ∈ s.toList := by
  unfold strptime at h
  cases hrun : runFmt fmtTiff s.toList ⟨1900, 1, 1, 0, 0, 0⟩ with
  | nil => rw [hrun] at h; exact absurd h (by simp)
  | cons p ps =>
    have hp : p ∈ runFmt fmtTiff s.toList ⟨1900, 1, 1, 0, 0, 0⟩ := by
      rw [hrun]; exact List.mem_cons_self _ _
    exact ⟨runFmt_lit_mem fmtTiff s.toList _ p hp ':' (by decide),
      runFmt_lit_mem fmtTiff s.toList _ p hp ' ' (by decide)⟩

/-- The format loop expressed through `firstMatchingFormat`. -/
theorem tryFormats_eq (fs : List (List FmtTok)) (s : String) :
    tryFormats fs s =
      (match firstMatchingFormat fs s with
       | some r => Value.vstr (isoformat r)
       | none => Value.vstr s) := by
  induction fs with
  | nil => rfl
  | cons f fs ih =>
    simp only [tryFormats, firstMatchingFormat]
    cases strptime f s <;> simp [ih]

/-- C4 as stated is false: a date-only input is not returned with the
time-of-day omitted — `datetime.isoformat()` always includes it, so
`"2023-10-15"` produces `"2023-10-15T00:00:00"`; moreover the
no-format-parses passthrough returns the resolved (cleaned) string, not
the original one, when the input held control characters. -/
theorem datetime_to_iso8601_counterexample :
    datetimeToIso8601 (Value.vstr "2023-10-15") = Value.vstr "2023-10-15T00:00:00" ∧
    Value.vstr "2023-10-15T00:00:00" ≠ Value.vstr "2023-10-15" ∧
    datetimeToIso8601 (Value.vstr "not\x00a date") = Value.vstr "nota date" ∧
    Value.vstr "nota date" ≠ Value.vstr "not\x00a date" := by
  refine ⟨rfl, ?_, rfl, ?_⟩ <;> simp

/-- One step of `firstMatchingFormat`. -/
theorem firstMatchingFormat_cons (f : List FmtTok) (fs : List (List FmtTok)) (s : String) :
    firstMatchingFormat (f :: fs) s =
      (match strptime f s with
       | some r => some r
       | none => firstMatchingFormat fs s) := rfl

/-- C4 (amended): `_datetime_to_iso8601` never raises; an input resolving
to an empty string yields absent; otherwise the six formats are tried in
the order TIFF `"%Y:%m:%d %H:%M:%S"`, `"%Y-%m-%d %H:%M:%S"`,
`"%Y/%m/%d %H:%M:%S"`, `"%Y-%m-%dT%H:%M:%S"`, `"%Y-%m-%d"`,
`"%Y:%m:%d"`, first parse winning (the colon/space pre-check never
suppresses a TIFF parse that would succeed), and the output is the parsed
datetime's `isoformat()`, which always carries a time of day (00:00:00
for the date-only formats); when no format parses, the resolved string is
returned unchanged. -/
theorem datetime_to_iso8601_characterization :
    (∀ s : String,
      datetimeToIso8601 (Value.vstr s) =
        (if s = "" then Value.vnone
         else
           if getFirstValidString (Value.vstr s) = "" then Value.vnone
           else
             match firstMatchingFormat allFormats (getFirstValidString (Value.vstr s)) with
             | some r => Value.vstr (isoformat r)
             | none => Value.vstr (getFirstValidString (Value.vstr s)))) ∧
    datetimeToIso8601 (Value.vstr "2023:10:15 14:30:25") = Value.vstr "2023-10-15T14:30:25" ∧
    datetimeToIso8601 (Value.vstr "2023-10-15") = Value.vstr "2023-10-15T00:00:00" ∧
    datetimeToIso8601 (Value.vstr "not a date") = Value.vstr "not a date" ∧
    datetimeToIso8601 (Value.vstr "") = Value.vnone := by
  refine ⟨?_, rfl, rfl, rfl, rfl⟩
  intro s
  by_cases hs : s = ""
  · subst hs; rfl
  · have htr : pyTruthy (Value.vstr s) = true := by simp [pyTruthy, hs]
    simp only [datetimeToIso8601, htr, if_true, if_neg hs]
    generalize getFirstValidString (Value.vstr s) = c
    by_cases hc : c = ""
    · simp [hc]
    · simp only [if_neg hc]
      rw [show allFormats = fmtTiff :: restFormats from rfl, firstMatchingFormat_cons]
      by_cases hg : (c.toList.contains ':' && c.toList.contains ' ') = true
      · rw [if_pos hg]
        cases hst : strptime fmtTiff c <;> simp [hst, tryFormats_eq]
      · rw [if_neg hg]
        have hnone : strptime fmtTiff c = none := by
          cases hst : strptime fmtTiff c with
          | none => rfl
          | some r =>
            obtain ⟨h1, h2⟩ := strptime_tiff_has_colon_space c r hst
            exact absurd (by simp; exact ⟨h1, h2⟩) hg
        simp [hnone, tryFormats_eq]

/-- The digit characters are decimal digits. -/
theorem digitCharFn_isDigit (d : Nat) (h : d < 10) : (digitCharFn d).isDigit = true := by
  interval_cases d <;> decide

/-- Digit characters decode to their value. -/
theorem charDigitVal_digitCharFn (d : Nat) (h : d < 10) : charDigitVal (digitCharFn d) = d := by
  interval_cases d <;> decide

/-- The little-endian digit expansion evaluates back to its number. -/
theorem natDigitsAux_val : ∀ fuel n, n ≤ fuel →
    (natDigitsAux fuel n).foldr (fun c acc => 10 * acc + charDigitVal c) 0 = n := by
  intro fuel
  induction fuel with
  | zero =>
    intro n h
    have hn : n = 0 := Nat.le_zero.mp h
    subst hn
    rfl
  | succ f ih =>
    intro n h
    by_cases hn : n = 0
    · subst hn; simp [natDigitsAux]
    · simp only [natDigitsAux, if_neg hn, List.foldr_cons]
      have hdiv : n / 10 ≤ f := by
        have h1 : n / 10 < n := Nat.div_lt_self (Nat.pos_of_ne_zero hn) (by norm_num)
        omega
      rw [ih (n / 10) hdiv, charDigitVal_digitCharFn (n % 10) (Nat.mod_lt n (by norm_num))]
      omega

/-- Every character the expansion produces is a digit. -/
theorem natDigitsAux_digits : ∀ fuel n, ∀ c ∈ natDigitsAux fuel n, c.isDigit = true := by
  intro fuel
  induction fuel with
  | zero => intro n c hc; simp [natDigitsAux] at hc
  | succ f ih =>
    intro n c hc
    by_cases hn : n = 0
    · subst hn; simp [natDigitsAux] at hc
    · simp only [natDigitsAux, if_neg hn, List.mem_cons] at hc
      rcases hc with hc | hc
      · subst hc; exact digitCharFn_isDigit _ (Nat.mod_lt n (by norm_num))
      · exact ih (n / 10) c hc

/-- `natDigits` produces only digit characters. -/
theorem natDigits_digits (n : Nat) : ∀ c ∈ natDigits n, c.isDigit = true := by
  intro c hc
  unfold natDigits at hc
  split at hc
  · simp at hc; subst hc; decide
  · rw [List.mem_reverse] at hc; exact natDigitsAux_digits n n c hc

/-- Decoding the decimal rendering of `n` recovers `n`. -/
theorem digitsToNat_natDigits (n : Nat) : digitsToNat (natDigits n) = n := by
  unfold natDigits
  split
  · next h => rw [h]; decide
  · show ((natDigitsAux n n).reverse).foldl (fun acc c => 10 * acc + charDigitVal c) 0 = n
    rw [List.foldl_reverse]
    exact natDigitsAux_val n n le_rfl

/-- The rendering of a number is never empty. -/
theorem natDigits_ne_nil : ∀ n : Nat, natDigits n ≠ []
  | 0 => by decide
  | f + 1 => by simp [natDigits, natDigitsAux]

/-- At most `k` digits are needed below `10 ^ k`. -/
theorem natDigitsAux_length : ∀ fuel n k, n ≤ fuel → n < 10 ^ k →
    (natDigitsAux fuel n).length ≤ k := by
  intro fuel
  induction fuel with
  | zero =>
    intro n k h hk
    have hn : n = 0 := Nat.le_zero.mp h
    subst hn
    simp [natDigitsAux]
  | succ f ih =>
    intro n k h hk
    by_cases hn : n = 0
    · subst hn; simp [natDigitsAux]
    · cases k with
      | zero => simp at hk; omega
      | succ k2 =>
        simp only [natDigitsAux, if_neg hn, List.length_cons]
        have hd : n / 10 < 10 ^ k2 := by
          rw [Nat.div_lt_iff_lt_mul (by norm_num : 0 < 10)]
          calc n < 10 ^ (k2 + 1) := hk
            _ = 10 ^ k2 * 10 := by ring
        have hle : n / 10 ≤ f := by
          have := Nat.div_lt_self (Nat.pos_of_ne_zero hn) (show 1 < 10 by norm_num)
          omega
        have := ih (n / 10) k2 hle hd
        omega

/-- `natDigits` of a number below `10 ^ k` has at most `k` digits
(`k ≥ 1`). -/
theorem natDigits_length_le (n k : Nat) (hk : 1 ≤ k) (h : n < 10 ^ k) :
    (natDigits n).length ≤ k := by
  unfold natDigits
  split
  · simpa using hk
  · rw [List.length_reverse]; exact natDigitsAux_length n n k le_rfl h

/-- `takeWhile` keeps a list all of whose elements pass. -/
theorem takeWhile_all (p : Char → Bool) : ∀ l : List Char,
    (∀ c ∈ l, p c = true) → l.takeWhile p = l := by
  intro l h
  induction l with
  | nil => rfl
  | cons c t ih =>
    rw [List.takeWhile_cons, h c (List.mem_cons_self c t)]
    simp only [if_true]
    rw [ih (fun x hx => h x (List.mem_cons_of_mem c hx))]

/-- `takeWhile` stops exactly at the first failing element. -/
theorem takeWhile_append_stop (p : Char → Bool) : ∀ l : List Char,
    (∀ c ∈ l, p c = true) → ∀ (c2 : Char), p c2 = false → ∀ r : List Char,
    (l ++ c2 :: r).takeWhile p = l := by
  intro l hall c2 hc2 r
  induction l with
  | nil => simp [List.takeWhile_cons, hc2]
  | cons a t ih =>
    rw [List.cons_append, List.takeWhile_cons, hall a (List.mem_cons_self a t)]
    simp only [if_true]
    rw [ih (fun x hx => hall x (List.mem_cons_of_mem a hx))]

/-- Leading zeros do not change a decoded value. -/
theorem digitsToNat_replicate_zero (z : Nat) (l : List Char) :
    digitsToNat (List.replicate z '0' ++ l) = digitsToNat l := by
  induction z with
  | zero => simp
  | succ z2 ih =>
    show digitsToNat ('0' :: (List.replicate z2 '0' ++ l)) = digitsToNat l
    unfold digitsToNat at ih ⊢
    simpa using ih

/-- Zero-padding decodes to the padded value. -/
theorem digitsToNat_padDigits (k a : Nat) : digitsToNat (padDigits k a) = a := by
  unfold padDigits
  rw [digitsToNat_replicate_zero, digitsToNat_natDigits]

/-- Zero-padding below `10 ^ k` has width exactly `k` (`k ≥ 1`). -/
theorem padDigits_length (k a : Nat) (hk : 1 ≤ k) (ha : a < 10 ^ k) :
    (padDigits k a).length = k := by
  unfold padDigits
  rw [List.length_append, List.length_replicate]
  have := natDigits_length_le a k hk ha
  omega

/-- Padded digits are all digit characters. -/
theorem padDigits_digits (k a : Nat) : ∀ c ∈ padDigits k a, c.isDigit = true := by
  intro c hc
  unfold padDigits at hc
  rw [List.mem_append] at hc
  rcases hc with hc | hc
  · rw [List.eq_of_mem_replicate hc]; decide
  · exact natDigits_digits a c hc

/-- A digit character is not the sign character. -/
theorem isDigit_ne_dash {c : Char} (h : c.isDigit = true) : ¬(c = '-') := by
  intro he; subst he; exact absurd h (by decide)

/-- A digit character is not the decimal point. -/
theorem isDigit_ne_dot {c : Char} (h : c.isDigit = true) : ¬(c = '.') := by
  intro he; subst he; exact absurd h (by decide)

/-- The digits part matches a whole all-digit input. -/
theorem matchDigitsPart_int (ds : List Char) (hne : ds ≠ [])
    (hall : ∀ c ∈ ds, c.isDigit = true) : matchDigitsPart ds = some ds := by
  cases ds with
  | nil => exact absurd rfl hne
  | cons c t =>
    unfold matchDigitsPart
    rw [takeWhile_all _ _ hall]
    simp [List.drop_length]

/-- The digits part greedily matches `digits.digits` whole. -/
theorem matchDigitsPart_float (I F : List Char) (hneI : I ≠ [])
    (hallI : ∀ c ∈ I, c.isDigit = true) (hallF : ∀ c ∈ F, c.isDigit = true) :
    matchDigitsPart (I ++ '.' :: F) = some (I ++ '.' :: F) := by
  unfold matchDigitsPart
  rw [takeWhile_append_stop _ I hallI '.' (by decide) F]
  have hInil : I.isEmpty = false := by
    cases I
    · exact absurd rfl hneI
    · rfl
  rw [hInil, List.drop_left]
  simp [takeWhile_all _ F hallF]

/-- `-?\d+\.?\d*` anchored: whole all-digit input. -/
theorem matchNumHere_digits (ds : List Char) (hne : ds ≠ [])
    (hall : ∀ c ∈ ds, c.isDigit = true) : matchNumHere ds = some ds := by
  cases ds with
  | nil => exact absurd rfl hne
  | cons c t =>
    have hcne : ¬(c = '-') := isDigit_ne_dash (hall c (List.mem_cons_self c t))
    simp only [matchNumHere, if_neg hcne]
    exact matchDigitsPart_int _ hne hall

/-- `-?\d+\.?\d*` anchored: sign and digits. -/
theorem matchNumHere_neg_digits (ds : List Char) (hne : ds ≠ [])
    (hall : ∀ c ∈ ds, c.isDigit = true) : matchNumHere ('-' :: ds) = some ('-' :: ds) := by
  simp only [matchNumHere, if_pos rfl]
  rw [matchDigitsPart_int ds hne hall]
  rfl

/-- `-?\d+\.?\d*` anchored: unsigned decimal. -/
theorem matchNumHere_float (I F : List Char) (hneI : I ≠ [])
    (hallI : ∀ c ∈ I, c.isDigit = true) (hallF : ∀ c ∈ F, c.isDigit = true) :
    matchNumHere (I ++ '.' :: F) = some (I ++ '.' :: F) := by
  cases I with
  | nil => exact absurd rfl hneI
  | cons c t =>
    rw [List.cons_append]
    have hcne : ¬(c = '-') := isDigit_ne_dash (hallI c (List.mem_cons_self c t))
    simp only [matchNumHere, if_neg hcne]
    rw [← List.cons_append]
    exact matchDigitsPart_float _ F hneI hallI hallF

/-- `-?\d+\.?\d*` anchored: signed decimal. -/
theorem matchNumHere_neg_float (I F : List Char) (hneI : I ≠ [])
    (hallI : ∀ c ∈ I, c.isDigit = true) (hallF : ∀ c ∈ F, c.isDigit = true) :
    matchNumHere ('-' :: (I ++ '.' :: F)) = some ('-' :: (I ++ '.' :: F)) := by
  simp only [matchNumHere, if_pos rfl]
  rw [matchDigitsPart_float I F hneI hallI hallF]
  rfl

/-- The leftmost search returns an anchored match at position zero. -/
theorem findNum_of_matchNumHere (cs : List Char) (ms : List Char) (hne : cs ≠ [])
    (h : matchNumHere cs = some ms) : findNum cs = some ms := by
  cases cs with
  | nil => exact absurd rfl hne
  | cons c t => simp only [findNum, h]

/-- All-digit text holds no decimal point. -/
theorem contains_dot_false (ds : List Char) (hall : ∀ c ∈ ds, c.isDigit = true) :
    ds.contains '.' = false := by
  cases hcon : ds.contains '.' with
  | false => rfl
  | true =>
    have hm : '.' ∈ ds := by simpa using hcon
    exact absurd (hall '.' hm) (by decide)

/-- Parsing the decimal rendering of an unsigned integer. -/
theorem parseNum_digits (ds : List Char) (hne : ds ≠ [])
    (hall : ∀ c ∈ ds, c.isDigit = true) :
    parseNumFromString (String.mk ds) = Value.vint (digitsToNat ds) := by
  unfold parseNumFromString
  rw [show (String.mk ds).toList = ds from rfl,
    findNum_of_matchNumHere ds ds hne (matchNumHere_digits ds hne hall)]
  have hint : parseIntChars ds = (digitsToNat ds : Int) := by
    cases ds with
    | nil => exact absurd rfl hne
    | cons c t =>
      simp [parseIntChars, isDigit_ne_dash (hall c (List.mem_cons_self c t))]
  simp [hint]
  intro hm
  exact absurd (hall '.' hm) (by decide)

/-- Parsing the decimal rendering of a negative integer. -/
theorem parseNum_neg_digits (ds : List Char) (hne : ds ≠ [])
    (hall : ∀ c ∈ ds, c.isDigit = true) :
    parseNumFromString (String.mk ('-' :: ds)) = Value.vint (-(digitsToNat ds : Int)) := by
  unfold parseNumFromString
  rw [show (String.mk ('-' :: ds)).toList = '-' :: ds from rfl,
    findNum_of_matchNumHere _ _ (by simp) (matchNumHere_neg_digits ds hne hall)]
  have hdot : ('-' :: ds).contains '.' = false := by
    have h2 : '.' ∉ ds := fun hm => absurd (hall '.' hm) (by decide)
    simp [h2]
  simp [hdot, parseIntChars]
  intro hm
  exact absurd (hall '.' hm) (by decide)

/-- The fraction parser on `digits.digits`. -/
theorem parseFracChars_split (I F : List Char) (hallI : ∀ c ∈ I, c.isDigit = true) :
    parseFracChars (I ++ '.' :: F) =
      (digitsToNat I : ℚ) + (digitsToNat F : ℚ) / 10 ^ F.length := by
  unfold parseFracChars
  have hIp : ∀ c ∈ I, (c != '.') = true := by
    intro c hc
    exact bne_iff_ne.mpr (isDigit_ne_dot (hallI c hc))
  rw [takeWhile_append_stop _ I hIp '.' (by decide) F]
  dsimp only
  rw [List.drop_left]
  rfl

/-- Parsing an unsigned plain decimal. -/
theorem parseNum_float (I F : List Char) (hneI : I ≠ [])
    (hallI : ∀ c ∈ I, c.isDigit = true) (hallF : ∀ c ∈ F, c.isDigit = true) :
    parseNumFromString (String.mk (I ++ '.' :: F)) =
      Value.vfloat ((digitsToNat I : ℚ) + (digitsToNat F : ℚ) / 10 ^ F.length) := by
  unfold parseNumFromString
  rw [show (String.mk (I ++ '.' :: F)).toList = I ++ '.' :: F from rfl,
    findNum_of_matchNumHere _ _ (by simp) (matchNumHere_float I F hneI hallI hallF)]
  have hdot : (I ++ '.' :: F).contains '.' = true := by simp
  have hfc : parseFloatChars (I ++ '.' :: F) =
      (digitsToNat I : ℚ) + (digitsToNat F : ℚ) / 10 ^ F.length := by
    cases I with
    | nil => exact absurd rfl hneI
    | cons c t =>
      rw [List.cons_append]
      have hcne : ¬(c = '-') := isDigit_ne_dash (hallI c (List.mem_cons_self c t))
      simp only [parseFloatChars, if_neg hcne]
      rw [← List.cons_append]
      exact parseFracChars_split _ F hallI
  simp [hdot, hfc]

/-- Parsing a signed plain decimal. -/
theorem parseNum_neg_float (I F : List Char) (hneI : I ≠ [])
    (hallI : ∀ c ∈ I, c.isDigit = true) (hallF : ∀ c ∈ F, c.isDigit = true) :
    parseNumFromString (String.mk ('-' :: (I ++ '.' :: F))) =
      Value.vfloat (-((digitsToNat I : ℚ) + (digitsToNat F : ℚ) / 10 ^ F.length)) := by
  unfold parseNumFromString
  rw [show (String.mk ('-' :: (I ++ '.' :: F))).toList = '-' :: (I ++ '.' :: F) from rfl,
    findNum_of_matchNumHere _ _ (by simp) (matchNumHere_neg_float I F hneI hallI hallF)]
  have hdot : ('-' :: (I ++ '.' :: F)).contains '.' = true := by simp
  have hfc : parseFloatChars ('-' :: (I ++ '.' :: F)) =
      -((digitsToNat I : ℚ) + (digitsToNat F : ℚ) / 10 ^ F.length) := by
    simp only [parseFloatChars, if_pos rfl]
    rw [parseFracChars_split I F hallI]
    simp
  simp [hdot, hfc]

/-- String glue: a signed decimal as one character list. -/
theorem dash_concat3_string (I F : List Char) :
    "-" ++ String.mk I ++ "." ++ String.mk F = String.mk ('-' :: (I ++ '.' :: F)) := by
  show String.mk ((('-' :: I) ++ ['.']) ++ F) = String.mk ('-' :: (I ++ '.' :: F))
  rw [List.append_assoc]
  rfl

/-- String glue: an unsigned decimal with an empty sign prefix. -/
theorem empty_concat3_string (I F : List Char) :
    "" ++ String.mk I ++ "." ++ String.mk F = String.mk (I ++ '.' :: F) := by
  show String.mk ((I ++ ['.']) ++ F) = String.mk (I ++ '.' :: F)
  rw [List.append_assoc]
  rfl

/-- The integer half of the round-trip: parsing `str(n)` recovers `n`, as
an integer (no decimal point is ever rendered). -/
theorem parse_intStr (n : Int) : parseFirstNumber (Value.vstr (intStr n)) = Value.vint n := by
  show parseNumFromString (intStr n) = Value.vint n
  unfold intStr
  by_cases hn : n < 0
  · rw [if_pos hn]
    show parseNumFromString (String.mk ('-' :: natDigits n.natAbs)) = Value.vint n
    rw [parseNum_neg_digits _ (natDigits_ne_nil _) (natDigits_digits _), digitsToNat_natDigits]
    congr 1
    omega
  · rw [if_neg hn]
    show parseNumFromString (String.mk (natDigits n.natAbs)) = Value.vint n
    rw [parseNum_digits _ (natDigits_ne_nil _) (natDigits_digits _), digitsToNat_natDigits]
    congr 1
    omega

/-- Modelled from Python's plain-decimal float rendering: the numeral of
`m / 10 ^ k` with a sign, an integer part and exactly `max k 1` fractional
digits; `str()` on a float without an exponent produces exactly such a
numeral (the shortest one). -/
def plainFloatStr (m : Int) (k : Nat) : String :=
  (if m < 0 then "-" else "") ++ natStr (m.natAbs / 10 ^ k) ++ "." ++
    String.mk (padDigits k (m.natAbs % 10 ^ k))

/-- Recombining the integer and fractional digits of `a / 10 ^ k`. -/
theorem plainFloatStr_value (a k : Nat) :
    ((digitsToNat (natDigits (a / 10 ^ k)) : ℚ)) +
      (digitsToNat (padDigits k (a % 10 ^ k)) : ℚ) / 10 ^ (padDigits k (a % 10 ^ k)).length =
      (a : ℚ) / 10 ^ k := by
  rw [digitsToNat_natDigits, digitsToNat_padDigits]
  cases k with
  | zero => simp [Nat.mod_one]
  | succ k2 =>
    rw [padDigits_length _ _ (by omega) (Nat.mod_lt a (by positivity))]
    have hne : ((10 : ℚ) ^ (k2 + 1)) ≠ 0 := by positivity
    rw [eq_div_iff hne, add_mul, div_mul_cancel₀ _ hne]
    have hnat := Nat.div_add_mod a (10 ^ (k2 + 1))
    have hcast : (a : ℚ) =
        ((10 ^ (k2 + 1) * (a / 10 ^ (k2 + 1)) + a % 10 ^ (k2 + 1) : Nat) : ℚ) := by
      rw [hnat]
    rw [hcast]
    push_cast
    ring

/-- The plain-decimal half of the round-trip: parsing the plain rendering
of `m / 10 ^ k` recovers its value, as a float (a decimal point is always
rendered). -/
theorem parse_plainFloatStr (m : Int) (k : Nat) :
    parseFirstNumber (Value.vstr (plainFloatStr m k)) = Value.vfloat ((m : ℚ) / 10 ^ k) := by
  show parseNumFromString (plainFloatStr m k) = _
  unfold plainFloatStr
  by_cases hm : m < 0
  · rw [if_pos hm]
    rw [show natStr (m.natAbs / 10 ^ k) = String.mk (natDigits (m.natAbs / 10 ^ k)) from rfl,
      dash_concat3_string]
    rw [parseNum_neg_float _ _ (natDigits_ne_nil _) (natDigits_digits _) (padDigits_digits _ _)]
    congr 1
    rw [plainFloatStr_value]
    have ha : ((m.natAbs : ℚ)) = -(m : ℚ) := by
      rw [Int.cast_natAbs, abs_of_neg hm]
      push_cast
      ring
    rw [ha]
    ring
  · rw [if_neg hm]
    rw [show natStr (m.natAbs / 10 ^ k) = String.mk (natDigits (m.natAbs / 10 ^ k)) from rfl,
      empty_concat3_string]
    rw [parseNum_float _ _ (natDigits_ne_nil _) (natDigits_digits _) (padDigits_digits _ _)]
    congr 1
    rw [plainFloatStr_value]
    have ha : ((m.natAbs : ℚ)) = (m : ℚ) := by
      rw [Int.cast_natAbs, abs_of_nonneg (not_lt.mp hm)]
    rw [ha]

/-- The decimal scaling found by `findDecExp` divides exactly. -/
theorem findDecExp_mod (q : ℚ) (k : Nat) (hfd : findDecExp q = some k) :
    q.num.natAbs * 10 ^ k % q.den = 0 := by
  have := List.find?_some hfd
  simpa using this

/-- The signed numerator `±D` over `10 ^ k` recovers the rational. -/
theorem pyFloat_D_value (q : ℚ) (k : Nat)
    (hdvd : q.num.natAbs * 10 ^ k % q.den = 0) :
    (((if q.num < 0 then -((q.num.natAbs * 10 ^ k / q.den : Nat) : Int)
        else ((q.num.natAbs * 10 ^ k / q.den : Nat) : Int) : Int) : ℚ)) / 10 ^ k = q := by
  have hden : (q.den : ℚ) ≠ 0 := Nat.cast_ne_zero.mpr q.den_nz
  have h10 : ((10 : ℚ)) ^ k ≠ 0 := by positivity
  have hD : (q.num.natAbs * 10 ^ k / q.den : Nat) * q.den = q.num.natAbs * 10 ^ k :=
    Nat.div_mul_cancel (Nat.dvd_of_mod_eq_zero hdvd)
  have hDq : ((q.num.natAbs * 10 ^ k / q.den : Nat) : ℚ) * (q.den : ℚ) =
      (q.num.natAbs : ℚ) * 10 ^ k := by exact_mod_cast hD
  have hq2 : (q : ℚ) * (q.den : ℚ) = (q.num : ℚ) := by
    nth_rewrite 1 [show (q : ℚ) = (q.num : ℚ) / (q.den : ℚ) from (Rat.num_div_den q).symm]
    exact div_mul_cancel₀ _ hden
  rw [div_eq_iff h10]
  apply mul_right_cancel₀ hden
  have hswap : (q : ℚ) * 10 ^ k * (q.den : ℚ) = (q.num : ℚ) * 10 ^ k := by
    rw [mul_right_comm, hq2]
  by_cases hm : q.num < 0
  · have hcast : ((q.num.natAbs : ℚ)) = -(q.num : ℚ) := by
      rw [Int.cast_natAbs, abs_of_neg hm]
      push_cast
      ring
    rw [if_pos hm, hswap, Int.cast_neg, Int.cast_natCast]
    rw [hcast] at hDq
    linear_combination -1 * hDq
  · have hcast : ((q.num.natAbs : ℚ)) = (q.num : ℚ) := by
      rw [Int.cast_natAbs, abs_of_nonneg (not_lt.mp hm)]
    rw [if_neg hm, hswap, Int.cast_natCast]
    rw [hcast] at hDq
    linear_combination hDq

/-- In the plain-decimal regime (decimal exponent in `[-4, 16)`),
`pyFloatStr` produces exactly the plain numeral of `±D / 10 ^ k`. -/
theorem pyFloatStr_plain (q : ℚ) (k : Nat) (hq : q.num ≠ 0) (hfd : findDecExp q = some k)
    (h1 : -4 ≤ ((natDigits (q.num.natAbs * 10 ^ k / q.den)).length : Int) - 1 - (k : Int))
    (h2 : ((natDigits (q.num.natAbs * 10 ^ k / q.den)).length : Int) - 1 - (k : Int) < 16) :
    pyFloatStr q = plainFloatStr
      (if q.num < 0 then -((q.num.natAbs * 10 ^ k / q.den : Nat) : Int)
        else ((q.num.natAbs * 10 ^ k / q.den : Nat) : Int)) k := by
  unfold pyFloatStr
  rw [if_neg hq, hfd]
  dsimp only
  rw [if_pos ⟨h1, h2⟩]
  unfold plainFloatStr
  have habs : (if q.num < 0 then -((q.num.natAbs * 10 ^ k / q.den : Nat) : Int)
      else ((q.num.natAbs * 10 ^ k / q.den : Nat) : Int)).natAbs =
      q.num.natAbs * 10 ^ k / q.den := by
    split <;> simp only [Int.natAbs_neg, Int.natAbs_ofNat]
  rw [habs]
  have hfrac : (if k = 0 then "0"
      else String.mk (padDigits k (q.num.natAbs * 10 ^ k / q.den % 10 ^ k))) =
      String.mk (padDigits k (q.num.natAbs * 10 ^ k / q.den % 10 ^ k)) := by
    cases k with
    | zero =>
      rw [pow_zero, Nat.mod_one]
      rfl
    | succ k2 => rfl
  rw [hfrac]
  by_cases hm : q.num < 0
  · rw [if_pos hm,
      if_pos (show (if q.num < 0 then -((q.num.natAbs * 10 ^ k / q.den : Nat) : Int)
        else ((q.num.natAbs * 10 ^ k / q.den : Nat) : Int)) < 0 by
          rw [if_pos hm]
          have hD1 : 1 ≤ q.num.natAbs * 10 ^ k / q.den := by
            have hpos : 0 < q.num.natAbs * 10 ^ k := by
              have := Int.natAbs_pos.mpr hq
              positivity
            have hdvd2 : q.den ∣ q.num.natAbs * 10 ^ k :=
              Nat.dvd_of_mod_eq_zero (findDecExp_mod q k hfd)
            exact (Nat.one_le_div_iff (Nat.pos_of_ne_zero q.den_nz)).mpr
              (Nat.le_of_dvd hpos hdvd2)
          omega)]
  · rw [if_neg hm,
      if_neg (show ¬((if q.num < 0 then -((q.num.natAbs * 10 ^ k / q.den : Nat) : Int)
        else ((q.num.natAbs * 10 ^ k / q.den : Nat) : Int)) < 0) by
          rw [if_neg hm]
          omega)]

/-- C9 is false as stated: the float `1e-07` (the rational
`mkRat 1 10000000`) renders in scientific notation, and parsing that
rendering yields the integer 1, not the original number. -/
theorem parse_first_number_roundtrip_counterexample :
    pyFloatStr (mkRat 1 10000000) = "1e-07" ∧
    parseFirstNumber (Value.vstr "1e-07") = Value.vint 1 ∧
    Value.vint 1 ≠ Value.vfloat (mkRat 1 10000000) := by
  refine ⟨by decide, rfl, by simp⟩

/-- C9 (amended): `parse_first_number` applied to the string
representation of a number recovers the number — as an integer exactly
when the matched text has no decimal point — for every integer and for
every float whose rendering is in plain decimal notation (decimal
exponent in `[-4, 16)`); floats rendered in scientific notation, such as
`1e-07`, are not recovered. -/
theorem parse_first_number_roundtrip_amended :
    (∀ n : Int, parseFirstNumber (Value.vstr (intStr n)) = Value.vint n) ∧
    (∀ (m : Int) (k : Nat),
      parseFirstNumber (Value.vstr (plainFloatStr m k)) = Value.vfloat ((m : ℚ) / 10 ^ k)) ∧
    (∀ (q : ℚ) (k : Nat), q.num ≠ 0 → findDecExp q = some k →
      -4 ≤ ((natDigits (q.num.natAbs * 10 ^ k / q.den)).length : Int) - 1 - (k : Int) →
      ((natDigits (q.num.natAbs * 10 ^ k / q.den)).length : Int) - 1 - (k : Int) < 16 →
      parseFirstNumber (Value.vstr (pyFloatStr q)) = Value.vfloat q) := by
  refine ⟨parse_intStr, parse_plainFloatStr, ?_⟩
  intro q k hq hfd h1 h2
  rw [pyFloatStr_plain q k hq hfd h1 h2, parse_plainFloatStr]
  congr 1
  exact pyFloat_D_value q k (findDecExp_mod q k hfd)

/-- Witness for C9 (amended) at the float 2.5 (`str` gives `"2.5"`). -/
theorem parse_first_number_roundtrip_amended_witness :
    parseFirstNumber (Value.vstr (pyFloatStr (mkRat 5 2))) = Value.vfloat (mkRat 5 2) :=
  parse_first_number_roundtrip_amended.2.2 (mkRat 5 2) 1 (by decide) (by decide)
    (by decide) (by decide)
